import Mathlib

/-
Verification of the object-diff library (src/src/index.ts, src/src/types.ts,
src/src/utils/comparison.ts and the coercion utilities).  The development is a
shallow embedding: JavaScript values are modelled by the inductive type JsVal,
JavaScript heap identity (the === comparison on objects, arrays and dates) is
modelled by an id tag carried by each heap-allocated constructor, and the
recursive engine is modelled with an explicit fuel counter that represents the
remaining depth budget maxDepth - depth (the source gate depth < maxDepth is
exactly 0 < fuel, and every recursive call increments depth, i.e. decrements
fuel).
-/

namespace ObjectDiff

/-- JavaScript numbers as used by the engine: either NaN or a finite value
(modelled as a rational; the engine only ever compares numbers for equality,
never performs arithmetic on them).  Infinities are not modelled. -/
inductive JsNum where
  | nan
  | fin (q : ℚ)
deriving DecidableEq

/-- JSON-like JavaScript values plus Date, the value universe of the spec
(section 3).  Heap-allocated values (date, arr, obj) carry an id tag modelling
reference identity: two structurally equal objects built at different program
points have different ids, and === on them compares ids.  RegExp, Map and Set
(recognized by isPlainObject in the source only to exclude them) are not
modelled. -/
inductive JsVal where
  | vnull
  | vundefined
  | num (n : JsNum)
  | str (s : String)
  | bool (b : Bool)
  | date (id : Nat) (time : Int)
  | arr (id : Nat) (elems : List JsVal)
  | obj (id : Nat) (fields : List (String × JsVal))

/-- Field list of a plain object (insertion ordered, as JavaScript own keys). -/
abbrev Fields := List (String × JsVal)

/-- The JavaScript typeof operator restricted to the modelled values. -/
def typeOf : JsVal → String
  | .vnull => "object"
  | .vundefined => "undefined"
  | .num _ => "number"
  | .str _ => "string"
  | .bool _ => "boolean"
  | .date _ _ => "object"
  | .arr _ _ => "object"
  | .obj _ _ => "object"

/-- The loose nullish test (value == null), true for both null and undefined. -/
def isNullish : JsVal → Bool
  | .vnull => true
  | .vundefined => true
  | _ => false

/-- Test for the null value only (value === null). -/
def isNull : JsVal → Bool
  | .vnull => true
  | _ => false

/-- Test for the undefined value only. -/
def isUndef : JsVal → Bool
  | .vundefined => true
  | _ => false

/-- The Array.isArray test. -/
def isArray : JsVal → Bool
  | .arr _ _ => true
  | _ => false

/-- Test for a Date instance. -/
def isDate : JsVal → Bool
  | .date _ _ => true
  | _ => false

/-- NaN test on a JavaScript number. -/
def jsNumIsNaN : JsNum → Bool
  | .nan => true
  | .fin _ => false

/-- Strict equality of two JavaScript numbers: NaN is equal to nothing,
finite values compare numerically. -/
def jsNumEq : JsNum → JsNum → Bool
  | .fin a, .fin b => decide (a = b)
  | _, _ => false

/-- The JavaScript strict equality === on the modelled values: primitives
compare by value (with NaN unequal to itself), heap values (date, arr, obj)
compare by reference, modelled by the id tag. -/
def strictEq : JsVal → JsVal → Bool
  | .vnull, .vnull => true
  | .vundefined, .vundefined => true
  | .num a, .num b => jsNumEq a b
  | .str a, .str b => decide (a = b)
  | .bool a, .bool b => a == b
  | .date i _, .date j _ => i == j
  | .arr i _, .arr j _ => i == j
  | .obj i _, .obj j _ => i == j
  | _, _ => false

/-- Decimal digit test. -/
def isDigitCh (c : Char) : Bool := decide ('0' ≤ c) && decide (c ≤ '9')

/-- Numeric value of a decimal digit character. -/
def digVal (c : Char) : Nat := c.toNat - '0'.toNat

/-- Accumulate a digit list into a natural number. -/
def digitsToNat : List Char → Nat → Nat
  | [], acc => acc
  | c :: t, acc => digitsToNat t (acc * 10 + digVal c)

/-- Whitespace characters trimmed by the numeric conversion. -/
def isSpaceCh (c : Char) : Bool := c = ' ' || c = '\t' || c = '\n' || c = '\r'

/-- Parse an unsigned decimal literal (digits, optional fraction, optional
exponent); none when the character list is not a valid decimal number. -/
def parseDecimal (cs : List Char) : Option ℚ :=
  let intPart := cs.takeWhile isDigitCh
  let rest1 := cs.dropWhile isDigitCh
  let fracPart := match rest1 with
    | '.' :: r => r.takeWhile isDigitCh
    | _ => []
  let rest2 := match rest1 with
    | '.' :: r => r.dropWhile isDigitCh
    | _ => rest1
  if intPart.isEmpty && fracPart.isEmpty then none
  else
    let expPair : Option (Int × List Char) := match rest2 with
      | 'e' :: r =>
          (match r with
           | '-' :: r2 => if (r2.takeWhile isDigitCh).isEmpty then none
               else some (-(digitsToNat (r2.takeWhile isDigitCh) 0 : Int), r2.dropWhile isDigitCh)
           | '+' :: r2 => if (r2.takeWhile isDigitCh).isEmpty then none
               else some ((digitsToNat (r2.takeWhile isDigitCh) 0 : Int), r2.dropWhile isDigitCh)
           | r2 => if (r2.takeWhile isDigitCh).isEmpty then none
               else some ((digitsToNat (r2.takeWhile isDigitCh) 0 : Int), r2.dropWhile isDigitCh))
      | 'E' :: r =>
          (match r with
           | '-' :: r2 => if (r2.takeWhile isDigitCh).isEmpty then none
               else some (-(digitsToNat (r2.takeWhile isDigitCh) 0 : Int), r2.dropWhile isDigitCh)
           | '+' :: r2 => if (r2.takeWhile isDigitCh).isEmpty then none
               else some ((digitsToNat (r2.takeWhile isDigitCh) 0 : Int), r2.dropWhile isDigitCh)
           | r2 => if (r2.takeWhile isDigitCh).isEmpty then none
               else some ((digitsToNat (r2.takeWhile isDigitCh) 0 : Int), r2.dropWhile isDigitCh))
      | r => some (0, r)
    match expPair with
    | none => none
    | some (expVal, rest3) =>
      if !rest3.isEmpty then none
      else
        let mant : Nat := digitsToNat (intPart ++ fracPart) 0
        let e : Int := expVal - (fracPart.length : Int)
        if e = 0 then some (mant : ℚ)
        else if 0 ≤ e then some ((mant : ℚ) * 10 ^ e.toNat)
        else some ((mant : ℚ) / 10 ^ (-e).toNat)

/-- Modelled from the spec: the JavaScript Number(string) conversion used by
coerceValues ("parse string as a number; if parse fails, not equal"), on its
decimal fragment.  The builtin is host code, not part of src/.  Trimmed empty
string converts to 0, an optional sign precedes a decimal literal, and any
other string (including the hexadecimal and Infinity forms, which the model
does not cover) converts to NaN. -/
def jsToNumber (s : String) : JsNum :=
  let t := ((s.data.dropWhile isSpaceCh).reverse.dropWhile isSpaceCh).reverse
  if t.isEmpty then .fin 0
  else
    match t with
    | '-' :: r => (match parseDecimal r with
        | some q => .fin (-q)
        | none => .nan)
    | '+' :: r => (match parseDecimal r with
        | some q => .fin q
        | none => .nan)
    | r => (match parseDecimal r with
        | some q => .fin q
        | none => .nan)

/-- Lower-case an ASCII letter, identity on everything else. -/
def lowerChar (c : Char) : Char :=
  if 'A' ≤ c ∧ c ≤ 'Z' then Char.ofNat (c.toNat + 32) else c

/-- Modelled from the spec: the toLowerCase conversion used by the
boolean/string coercion rule ("string must case-insensitively equal true or
false"), on the ASCII fragment. -/
def toLowerStr (s : String) : String := String.mk (s.data.map lowerChar)

/-- Leap year test of the Gregorian calendar. -/
def isLeapYear (y : Int) : Bool := y % 4 = 0 && (y % 100 ≠ 0 || y % 400 = 0)

/-- Number of days of a month (1 to 12). -/
def daysInMonth (y : Int) (m : Nat) : Nat :=
  if m = 2 then (if isLeapYear y then 29 else 28)
  else if m = 4 || m = 6 || m = 9 || m = 11 then 30
  else 31

/-- Days from the civil epoch 1970-01-01 to the given Gregorian date
(the standard era-based formula, using floor division for the era). -/
def daysFromCivil (y : Int) (m d : Nat) : Int :=
  let y2 : Int := if m ≤ 2 then y - 1 else y
  let era : Int := Int.fdiv y2 400
  let yoe : Int := y2 - era * 400
  let mp : Nat := if 2 < m then m - 3 else m + 9
  let doy : Int := ((153 * mp + 2) / 5 + d - 1 : Nat)
  let doe : Int := yoe * 365 + Int.fdiv yoe 4 - Int.fdiv yoe 100 + doy
  era * 146097 + doe - 719468

/-- Modelled from the spec: the JavaScript new Date(string) parser used by the
date/string coercion rule ("parse string as a date/timestamp; if unparseable,
not equal"), on the ISO date-only fragment YYYY-MM-DD.  The builtin is host
code, not part of src/.  A valid date yields its timestamp in milliseconds
since the epoch (getTime); anything else is an invalid date (none, meaning a
NaN timestamp). -/
def jsToDate (s : String) : Option Int :=
  match s.data with
  | [y1, y2, y3, y4, '-', m1, m2, '-', d1, d2] =>
    if isDigitCh y1 && isDigitCh y2 && isDigitCh y3 && isDigitCh y4 &&
       isDigitCh m1 && isDigitCh m2 && isDigitCh d1 && isDigitCh d2 then
      let y : Int := (digitsToNat [y1, y2, y3, y4] 0 : Nat)
      let m : Nat := digitsToNat [m1, m2] 0
      let d : Nat := digitsToNat [d1, d2] 0
      if 1 ≤ m && m ≤ 12 && 1 ≤ d && d ≤ daysInMonth y m then
        some (daysFromCivil y m d * 86400000)
      else none
    else none
  | _ => none

/-- Modelled from the spec: the JavaScript String() conversion, used only as
the sort key of the default Array.prototype.sort comparator on primitive
elements.  Finite non-integer numbers are rendered in a numerator/denominator
form; like the JavaScript decimal rendering, this is injective on distinct
finite numbers, which is the only property the sort relies on.  Arrays,
objects and dates never reach the sorted branch (the source only sorts arrays
whose elements are non-object primitives). -/
def jsToString : JsVal → String
  | .vnull => "null"
  | .vundefined => "undefined"
  | .bool b => if b then "true" else "false"
  | .str s => s
  | .num .nan => "NaN"
  | .num (.fin q) =>
      if q.den = 1 then toString q.num else toString q.num ++ "/" ++ toString q.den
  | .date _ t => "Date:" ++ toString t
  | .arr _ _ => ""
  | .obj _ _ => "[object Object]"

/-- Lexicographic comparison of character lists (the JavaScript string
comparison used by the default sort comparator, on code points). -/
def charListLe : List Char → List Char → Bool
  | [], _ => true
  | _ :: _, [] => false
  | a :: as, b :: bs => if a = b then charListLe as bs else decide (a < b)

/-- The ES default SortCompare as a total boolean order: undefined sorts after
everything, all other elements compare by their String() images. -/
def sortLe (x y : JsVal) : Bool :=
  if isUndef x then isUndef y
  else if isUndef y then true
  else charListLe (jsToString x).data (jsToString y).data

/-- Insert into a sortLe-sorted list, before the first element not below the
inserted one. -/
def orderedInsert (x : JsVal) : List JsVal → List JsVal
  | [] => [x]
  | y :: t => if sortLe x y then x :: y :: t else y :: orderedInsert x t

/-- The copy-and-sort step of compareArrays ([...array].sort()).  Stable
insertion sort; a stable sort under a fixed total comparator has a unique
output, so this is extensionally the ES sort under the modelled comparator. -/
def jsSort : List JsVal → List JsVal
  | [] => []
  | x :: t => orderedInsert x (jsSort t)

/-- Glob matching of the compiled ignore-pattern regex: the source escapes
every regex metacharacter except *, replaces * by a dot-star and anchors both
ends, so the compiled regex matches exactly the strings obtained by replacing
each * with an arbitrary substring.  (The JavaScript dot does not cross line
terminators; paths containing line terminators are not distinguished by the
model.) -/
def globMatch : List Char → List Char → Bool
  | [], s => s.isEmpty
  | '*' :: p, s =>
      globMatch p s ||
        (match s with
         | [] => false
         | _ :: s2 => globMatch ('*' :: p) s2)
  | c :: p, s =>
      match s with
      | [] => false
      | c2 :: s2 => c = c2 && globMatch p s2
termination_by p s => (s.length, p.length)

/-- Checks if a property should be ignored based on the current path
(src/src/utils/comparison.ts, shouldIgnoreProperty): exact match, else glob
match when the pattern contains *, else ancestor-prefix match when the pattern
contains a dot, else plain name match. -/
def shouldIgnoreProperty (propertyPath : String) (ignoreProperties : List String) : Bool :=
  if ignoreProperties.isEmpty then false
  else
    ignoreProperties.any fun ignorePath =>
      if ignorePath = propertyPath then true
      else if ignorePath.data.contains '*' then
        globMatch ignorePath.data propertyPath.data
      else if ignorePath.data.contains '.' then
        (ignorePath ++ ".").data.isPrefixOf propertyPath.data
      else decide (propertyPath = ignorePath)

/-- Result of coerceValues: the (possibly coerced) representations and the
equality verdict. -/
structure CoerceResult where
  coercedA : JsVal
  coercedB : JsVal
  areEqual : Bool

/-- Type coercion of two values of differing types
(src/src/utils/coercion.ts, coerceValues).  The source is an if chain; the
match below has mutually exclusive patterns, and for each pattern whose guard
fails (unparseable number, non-boolean string, invalid date) the chain is
verified to fall through to the final not-equal case, which the corresponding
else branch inlines. -/
def coerceValues (valueA valueB : JsVal) : CoerceResult :=
  if isNullish valueA && isNullish valueB then ⟨valueA, valueB, true⟩
  else if isNullish valueA || isNullish valueB then ⟨valueA, valueB, false⟩
  else if typeOf valueA = typeOf valueB then ⟨valueA, valueB, strictEq valueA valueB⟩
  else
    match valueA, valueB with
    | .num n, .str s =>
        let coercedB := jsToNumber s
        if !jsNumIsNaN coercedB then ⟨valueA, .num coercedB, jsNumEq n coercedB⟩
        else ⟨valueA, valueB, false⟩
    | .str s, .num n =>
        let coercedA := jsToNumber s
        if !jsNumIsNaN coercedA then ⟨.num coercedA, valueB, jsNumEq coercedA n⟩
        else ⟨valueA, valueB, false⟩
    | .bool x, .str s =>
        let lower := toLowerStr s
        if lower = "true" ∨ lower = "false" then
          ⟨valueA, .bool (decide (lower = "true")), x == decide (lower = "true")⟩
        else ⟨valueA, valueB, false⟩
    | .str s, .bool x =>
        let lower := toLowerStr s
        if lower = "true" ∨ lower = "false" then
          ⟨.bool (decide (lower = "true")), valueB, decide (lower = "true") == x⟩
        else ⟨valueA, valueB, false⟩
    | .date _ t, .str s =>
        (match jsToDate s with
         | some t2 => ⟨valueA, .date 0 t2, decide (t = t2)⟩
         | none => ⟨valueA, valueB, false⟩)
    | .str s, .date _ t =>
        (match jsToDate s with
         | some t2 => ⟨.date 0 t2, valueB, decide (t2 = t)⟩
         | none => ⟨valueA, valueB, false⟩)
    | .num n, .bool x =>
        ⟨valueA, .num (.fin (if x then 1 else 0)), jsNumEq n (.fin (if x then 1 else 0))⟩
    | .bool x, .num n =>
        ⟨.num (.fin (if x then 1 else 0)), valueB, jsNumEq (.fin (if x then 1 else 0)) n⟩
    | _, _ => ⟨valueA, valueB, false⟩

/-- Compares two primitive values with optional type coercion
(src/src/utils/comparison.ts, comparePrimitives): strict equality first, then
coercion when enabled. -/
def comparePrimitives (valueA valueB : JsVal) (enableTypeCoercion : Bool) : Bool :=
  if strictEq valueA valueB then true
  else if !enableTypeCoercion then false
  else (coerceValues valueA valueB).areEqual

/-- Checks if a value is a plain object (src/src/utils/comparison.ts,
isPlainObject): non-null, of object type, not an array, not a Date.  The
RegExp, Map and Set exclusions of the source concern values outside the
modelled universe. -/
def isPlainObject (value : JsVal) : Bool :=
  !isNull value && typeOf value = "object" && !isArray value && !isDate value

/-- Result of the diff operation (src/src/types.ts, DiffResult).  The fields
are declared as string-keyed records in the source, but the top-level
null/undefined branches of internalDiff assign whole input values to them,
hence the JsVal type. -/
structure DiffResult where
  additions : JsVal
  deletions : JsVal
  updates : JsVal

/-- A fresh empty record ({}).  Result records are never compared by
reference, so all records built by the engine share the id 0. -/
def emptyRec : JsVal := .obj 0 []

/-- The all-empty diff result. -/
def emptyResult : DiffResult := ⟨emptyRec, emptyRec, emptyRec⟩

/-- An update entry, the object literal with the from and to fields. -/
def fromTo (a b : JsVal) : JsVal := .obj 0 [("from", a), ("to", b)]

/-- Object.keys on the modelled values: the own keys of a plain object, empty
for everything else (the engine only ever takes keys of records). -/
def jsKeys : JsVal → List String
  | .obj _ fs => fs.map Prod.fst
  | _ => []

/-- Property lookup on a field list: first binding wins (field lists of well
formed objects have no duplicate keys). -/
def jsGet : Fields → String → Option JsVal
  | [], _ => none
  | (k0, v0) :: t, k => if k0 = k then some v0 else jsGet t k

/-- The JavaScript in test for an own key. -/
def hasKey (fs : Fields) (k : String) : Bool := (jsGet fs k).isSome

/-- Property read obj[key], undefined when absent. -/
def jsIndex (fs : Fields) (k : String) : JsVal := (jsGet fs k).getD .vundefined

/-- Property assignment on a field list: overwrite the existing binding in
place, else append (JavaScript property-set order semantics). -/
def setField : Fields → String → JsVal → Fields
  | [], k, v => [(k, v)]
  | (k0, v0) :: t, k, v => if k0 = k then (k, v) :: t else (k0, v0) :: setField t k v

/-- Property assignment result[key] = v on a result map (always a record when
reached by the engine). -/
def recSet (r : JsVal) (k : String) (v : JsVal) : JsVal :=
  match r with
  | .obj i fs => .obj i (setField fs k v)
  | other => other

/-- Property lookup on a result map. -/
def recGet (r : JsVal) (k : String) : Option JsVal :=
  match r with
  | .obj _ fs => jsGet fs k
  | _ => none

/-- Join path segments with dots (path.join). -/
def joinDot : List String → String
  | [] => ""
  | [s] => s
  | s :: t => s ++ "." ++ joinDot t

/-- The current property path of a key  (compareObjects:
path.join(".") + "." + key when the path is nonempty, else the key). -/
def currentPathOf (path : List String) (key : String) : String :=
  if path.isEmpty then key else joinDot path ++ "." ++ key

/-- Resolved diff options (src/src/types.ts, Required DiffOptions). -/
structure ResolvedOptions where
  ignoreProperties : List String
  enableTypeCoercion : Bool
  arrayOrderMatters : Bool
  maxDepth : Nat

/-- Caller-supplied options with every field optional (src/src/types.ts,
DiffOptions). -/
structure DiffOptions where
  ignoreProperties : Option (List String)
  enableTypeCoercion : Option Bool
  arrayOrderMatters : Option Bool
  maxDepth : Option Nat

/-- The empty options object ({}), every field defaulted. -/
def noOverrides : DiffOptions := ⟨none, none, none, none⟩

/-- Default options for diff operations (src/src/index.ts, DEFAULT_OPTIONS). -/
def DEFAULT_OPTIONS : ResolvedOptions := ⟨[], true, true, 10⟩

/-- Merge caller options onto the defaults ({...DEFAULT_OPTIONS, ...options}). -/
def mergeOptions (options : DiffOptions) : ResolvedOptions :=
  ⟨options.ignoreProperties.getD DEFAULT_OPTIONS.ignoreProperties,
   options.enableTypeCoercion.getD DEFAULT_OPTIONS.enableTypeCoercion,
   options.arrayOrderMatters.getD DEFAULT_OPTIONS.arrayOrderMatters,
   options.maxDepth.getD DEFAULT_OPTIONS.maxDepth⟩

/-- The non-object element test of the sorted branch of compareArrays
(typeof item !== "object" || item === null). -/
def isPrimElemSort (x : JsVal) : Bool := !(typeOf x = "object") || isNull x

/-- The non-object element test of the ordered loop of compareArrays
(typeof item !== "object" || item === null || Array.isArray(item)). -/
def isPrimLike (x : JsVal) : Bool := !(typeOf x = "object") || isNull x || isArray x

/-- The object element test of the ordered loop of compareArrays
(typeof item === "object" && item !== null && !Array.isArray(item)); note that
this raw test, unlike isPlainObject, classifies a Date as an object. -/
def isObjLike (x : JsVal) : Bool := typeOf x = "object" && !isNull x && !isArray x

/-- Element list of an array value. -/
def elemsOf : JsVal → List JsVal
  | .arr _ xs => xs
  | _ => []

/-- Field list of an object value. -/
def fieldsOf : JsVal → Fields
  | .obj _ fs => fs
  | _ => []

/-- The element-wise comparison loop of the sorted branch of compareArrays:
comparePrimitives on each position of the two sorted copies. -/
def sortedLoop : List JsVal → List JsVal → Bool → Bool
  | [], _, _ => true
  | a :: rest, bs, coercion =>
    if !comparePrimitives a (bs.headD .vundefined) coercion then false
    else sortedLoop rest bs.tail coercion

/-- The order-sensitive element walk of compareArrays.  The idn argument is
the internal diff function at the incremented depth, exactly as the source
passes internalDiff into compareArrays; it is invoked only behind the depth
gate 0 < fuel (depth < maxDepth). -/
def orderLoop (fuel : Nat) (path : List String) (opts : ResolvedOptions)
    (idn : JsVal → JsVal → List String → DiffResult) :
    List JsVal → List JsVal → Nat → Bool
  | [], _, _ => true
  | itemA :: rest, bs, i =>
    let itemB := bs.headD .vundefined
    if isPrimLike itemA && isPrimLike itemB then
      if !comparePrimitives itemA itemB opts.enableTypeCoercion then false
      else orderLoop fuel path opts idn rest bs.tail (i + 1)
    else if isObjLike itemA && isObjLike itemB then
      if 0 < fuel then
        let d := idn itemA itemB (path ++ [toString i])
        if !(jsKeys d.additions).isEmpty || !(jsKeys d.deletions).isEmpty ||
            !(jsKeys d.updates).isEmpty then false
        else orderLoop fuel path opts idn rest bs.tail (i + 1)
      else false
    else false

/-- Compares two arrays with configurable order sensitivity
(src/src/utils/comparison.ts, compareArrays): unequal lengths are unequal,
empty arrays are equal; when order does not matter and every element of both
arrays is a non-object primitive, both arrays are copied, sorted and compared
element-wise; otherwise the order-sensitive walk runs. -/
def compareArrays (arrayA arrayB : List JsVal) (fuel : Nat) (path : List String)
    (opts : ResolvedOptions) (idn : JsVal → JsVal → List String → DiffResult) : Bool :=
  if arrayA.length ≠ arrayB.length then false
  else if arrayA.length = 0 then true
  else if !opts.arrayOrderMatters && arrayA.all isPrimElemSort && arrayB.all isPrimElemSort then
    sortedLoop (jsSort arrayA) (jsSort arrayB) opts.enableTypeCoercion
  else orderLoop fuel path opts idn arrayA arrayB 0

/-- One iteration of the deletions pass of compareObjects: skip the key when
its path is ignored, record objA[key] as a deletion when the key is absent
from objB. -/
def delStep (objA objB : Fields) (path : List String) (opts : ResolvedOptions)
    (key : String) (r : DiffResult) : DiffResult :=
  if shouldIgnoreProperty (currentPathOf path key) opts.ignoreProperties then r
  else if !hasKey objB key then
    { r with deletions := recSet r.deletions key (jsIndex objA key) }
  else r

/-- The deletions pass of compareObjects: walk the keys of objA, applying
delStep to each. -/
def delLoop (objA objB : Fields) (path : List String) (opts : ResolvedOptions) :
    List String → DiffResult → DiffResult
  | [], r => r
  | key :: rest, r => delLoop objA objB path opts rest (delStep objA objB path opts key r)

/-- One iteration of the additions/updates pass of compareObjects: skip the
key when its path is ignored; record objB[key] as an addition when the key is
absent from objA; otherwise compare the two values: recursive diff for
plain-object pairs within the depth budget (attaching each nonempty nested
map under the key — the three sequential conditional assignments of the
source touch three distinct fields, rendered here as one record of three
conditionals), array comparison for array pairs, primitive comparison
otherwise. -/
def addStep (objA objB : Fields) (fuel : Nat) (path : List String)
    (opts : ResolvedOptions) (idn : JsVal → JsVal → List String → DiffResult)
    (key : String) (r : DiffResult) : DiffResult :=
  if shouldIgnoreProperty (currentPathOf path key) opts.ignoreProperties then r
  else if !hasKey objA key then
    { r with additions := recSet r.additions key (jsIndex objB key) }
  else
    let valueA := jsIndex objA key
    let valueB := jsIndex objB key
    if 0 < fuel && isPlainObject valueA && isPlainObject valueB then
      let nested := idn valueA valueB (path ++ [key])
      { additions :=
          if !(jsKeys nested.additions).isEmpty then recSet r.additions key nested.additions
          else r.additions,
        deletions :=
          if !(jsKeys nested.deletions).isEmpty then recSet r.deletions key nested.deletions
          else r.deletions,
        updates :=
          if !(jsKeys nested.updates).isEmpty then recSet r.updates key nested.updates
          else r.updates }
    else if isArray valueA && isArray valueB then
      if !compareArrays (elemsOf valueA) (elemsOf valueB) fuel (path ++ [key]) opts idn then
        { r with updates := recSet r.updates key (fromTo valueA valueB) }
      else r
    else
      if !comparePrimitives valueA valueB opts.enableTypeCoercion then
        { r with updates := recSet r.updates key (fromTo valueA valueB) }
      else r

/-- The additions/updates pass of compareObjects: walk the keys of objB,
applying addStep to each. -/
def addLoop (objA objB : Fields) (fuel : Nat) (path : List String)
    (opts : ResolvedOptions) (idn : JsVal → JsVal → List String → DiffResult) :
    List String → DiffResult → DiffResult
  | [], r => r
  | key :: rest, r =>
    addLoop objA objB fuel path opts idn rest (addStep objA objB fuel path opts idn key r)

/-- Compares two plain objects recursively (src/src/index.ts, compareObjects):
the deletions pass over the keys of objA followed by the additions/updates
pass over the keys of objB. -/
def compareObjects (objA objB : Fields) (fuel : Nat) (path : List String)
    (opts : ResolvedOptions) (idn : JsVal → JsVal → List String → DiffResult) : DiffResult :=
  let afterDeletions := delLoop objA objB path opts (objA.map Prod.fst) emptyResult
  addLoop objA objB fuel path opts idn (objB.map Prod.fst) afterDeletions

/-- The body of internalDiff (src/src/index.ts, internalDiff), parameterized
by the diff function for the next depth level, mirroring how the source
injects internalDiff into compareArrays.  The two branches of the
different-types case are written out separately because the source has an
if/else there (with identical bodies, see the comment in the source). -/
def diffBody (fuel : Nat) (idn : JsVal → JsVal → List String → DiffResult)
    (objA objB : JsVal) (path : List String) (opts : ResolvedOptions) : DiffResult :=
  if isNullish objA && isNullish objB then emptyResult
  else if isNullish objA then ⟨objB, emptyRec, emptyRec⟩
  else if isNullish objB then ⟨emptyRec, objA, emptyRec⟩
  else if typeOf objA ≠ typeOf objB then
    if opts.enableTypeCoercion then ⟨emptyRec, emptyRec, fromTo objA objB⟩
    else ⟨emptyRec, emptyRec, fromTo objA objB⟩
  else if isArray objA && isArray objB then
    if !compareArrays (elemsOf objA) (elemsOf objB) fuel path opts idn then
      ⟨emptyRec, emptyRec, fromTo objA objB⟩
    else emptyResult
  else if isPlainObject objA && isPlainObject objB then
    compareObjects (fieldsOf objA) (fieldsOf objB) fuel path opts idn
  else if !comparePrimitives objA objB opts.enableTypeCoercion then
    ⟨emptyRec, emptyRec, fromTo objA objB⟩
  else emptyResult

/-- Internal diff function that handles the recursive comparison
(src/src/index.ts, internalDiff).  The fuel argument is the remaining depth
budget maxDepth - depth; every recursive descent decrements it, and every
descent in the source is behind the gate depth < maxDepth, i.e. 0 < fuel, so
at fuel 0 the next-level function is never invoked (the placeholder passed
there is dead code, matching the closed gates). -/
def internalDiff : Nat → JsVal → JsVal → List String → ResolvedOptions → DiffResult
  | 0, a, b, path, opts =>
      diffBody 0 (fun _ _ _ => emptyResult) a b path opts
  | fuel + 1, a, b, path, opts =>
      diffBody (fuel + 1) (fun x y p => internalDiff fuel x y p opts) a b path opts

/-- Main diff function that compares two objects (src/src/index.ts, diff):
merge the options with the defaults and run the internal diff with the full
depth budget (depth 0, i.e. fuel maxDepth) and the empty path. -/
def diff (objectA objectB : JsVal) (options : DiffOptions) : DiffResult :=
  let mergedOptions := mergeOptions options
  internalDiff mergedOptions.maxDepth objectA objectB [] mergedOptions


/-- The next-level diff function that internalDiff threads into its body: at
fuel 0 the gates are closed and the placeholder is dead code. -/
def nextLevel (fuel : Nat) (opts : ResolvedOptions) :
    JsVal → JsVal → List String → DiffResult :=
  match fuel with
  | 0 => fun _ _ _ => emptyResult
  | f + 1 => fun x y p => internalDiff f x y p opts

theorem internalDiff_eq (fuel : Nat) (a b : JsVal) (path : List String)
    (opts : ResolvedOptions) :
    internalDiff fuel a b path opts = diffBody fuel (nextLevel fuel opts) a b path opts := by
  cases fuel <;> rfl

theorem strictEq_refl (v : JsVal) (h : v ≠ .num .nan) : strictEq v v = true := by
  cases v with
  | num n => cases n with
    | nan => exact absurd rfl h
    | fin q => simp [strictEq, jsNumEq]
  | _ => simp [strictEq, jsNumEq]

theorem strictEq_false_of_typeOf_ne {a b : JsVal} (h : typeOf a ≠ typeOf b) :
    strictEq a b = false := by
  cases a <;> cases b <;> simp_all [typeOf, strictEq]

theorem isPlainObject_iff (v : JsVal) :
    isPlainObject v = true ↔ ∃ i fs, v = .obj i fs := by
  cases v <;> simp [isPlainObject, isNull, isArray, isDate, typeOf]

theorem typeOf_of_isPlainObject {v : JsVal} (h : isPlainObject v = true) :
    typeOf v = "object" := by
  obtain ⟨i, fs, rfl⟩ := (isPlainObject_iff v).1 h
  rfl

theorem isNullish_of_isPlainObject {v : JsVal} (h : isPlainObject v = true) :
    isNullish v = false := by
  obtain ⟨i, fs, rfl⟩ := (isPlainObject_iff v).1 h
  rfl

theorem jsGet_isSome_iff_mem {fs : Fields} {k : String} :
    (jsGet fs k).isSome ↔ k ∈ fs.map Prod.fst := by
  induction fs with
  | nil => simp [jsGet]
  | cons hd t ih =>
    obtain ⟨k0, v0⟩ := hd
    by_cases h : k0 = k
    · subst h
      simp [jsGet]
    · simp [jsGet, h, Ne.symm h, ih]

theorem hasKey_iff_mem {fs : Fields} {k : String} :
    hasKey fs k = true ↔ k ∈ fs.map Prod.fst := by
  simp [hasKey, jsGet_isSome_iff_mem]

theorem mem_jsKeys_iff_recGet {v : JsVal} {k : String} :
    k ∈ jsKeys v ↔ (recGet v k).isSome := by
  cases v <;> simp [jsKeys, recGet, jsGet_isSome_iff_mem]

theorem jsGet_setField_ne (fs : Fields) (k k2 : String) (v : JsVal) (h : k2 ≠ k) :
    jsGet (setField fs k v) k2 = jsGet fs k2 := by
  induction fs with
  | nil => simp [setField, jsGet, Ne.symm h]
  | cons hd t ih =>
    obtain ⟨k0, v0⟩ := hd
    by_cases hk : k0 = k
    · subst hk
      simp [setField, jsGet, Ne.symm h]
    · simp [setField, jsGet, hk, ih]

theorem jsGet_setField_self (fs : Fields) (k : String) (v : JsVal) :
    jsGet (setField fs k v) k = some v := by
  induction fs with
  | nil => simp [setField, jsGet]
  | cons hd t ih =>
    obtain ⟨k0, v0⟩ := hd
    by_cases hk : k0 = k
    · subst hk
      simp [setField, jsGet]
    · simp [setField, jsGet, hk, ih]

theorem recGet_recSet_ne (r : JsVal) (k k2 : String) (v : JsVal) (h : k2 ≠ k) :
    recGet (recSet r k v) k2 = recGet r k2 := by
  cases r with
  | obj i fs => simp [recSet, recGet, jsGet_setField_ne fs k k2 v h]
  | _ => rfl

theorem recGet_recSet_self (i : Nat) (fs : Fields) (k : String) (v : JsVal) :
    recGet (recSet (.obj i fs) k v) k = some v := by
  simp [recSet, recGet, jsGet_setField_self]

/-- Record test: the result maps built by the engine are always records. -/
def isRecordB : JsVal → Bool
  | .obj _ _ => true
  | _ => false

theorem isRecordB_recSet {r : JsVal} (h : isRecordB r = true) (k : String) (v : JsVal) :
    isRecordB (recSet r k v) = true := by
  cases r <;> simp_all [isRecordB, recSet]

theorem recGet_recSet_self_of_record {r : JsVal} (h : isRecordB r = true)
    (k : String) (v : JsVal) : recGet (recSet r k v) k = some v := by
  cases r <;> simp_all [isRecordB]
  exact recGet_recSet_self _ _ k v

theorem shouldIgnoreProperty_nil (p : String) : shouldIgnoreProperty p [] = false := rfl



theorem diffBody_typeOf_ne (fuel : Nat) (idn : JsVal → JsVal → List String → DiffResult)
    (a b : JsVal) (path : List String) (opts : ResolvedOptions)
    (ha : isNullish a = false) (hb : isNullish b = false) (ht : typeOf a ≠ typeOf b) :
    diffBody fuel idn a b path opts = ⟨emptyRec, emptyRec, fromTo a b⟩ := by
  simp [diffBody, ha, hb, ht]

/-- C10: NaN is never equal to itself under comparePrimitives, with coercion
enabled or disabled (the strict check fails and the same-type coercion branch
is also strict equality), so diffing two objects both carrying NaN in a field
reports an update for that field rather than an empty result. -/
theorem c10_nan_self_inequality :
    comparePrimitives (.num .nan) (.num .nan) true = false ∧
    comparePrimitives (.num .nan) (.num .nan) false = false ∧
    diff (.obj 1 [("x", .num .nan)]) (.obj 2 [("x", .num .nan)]) noOverrides
      = ⟨emptyRec, emptyRec, .obj 0 [("x", fromTo (.num .nan) (.num .nan))]⟩ :=
  ⟨rfl, rfl, rfl⟩

/-- C2: the engine is total over the modelled value universe: for every pair
of inputs (including null or undefined at the top level) and every options
object, diff terminates and returns a DiffResult carrying the three maps.
Termination itself is certified by internalDiff being accepted as a total
function (structural recursion on the remaining depth budget: every recursive
descent of the source sits behind the gate depth < maxDepth and increments
depth); no input is rejected and no error outcome exists in the result type,
matching the absence of any throw site in the source. -/
theorem c2_totality (a b : JsVal) (options : DiffOptions) :
    ∃ add del upd, diff a b options = DiffResult.mk add del upd :=
  ⟨_, _, _, rfl⟩

/-- C4, top level: differing typeof kinds on non-nullish top-level arguments
produce the single update from/to with empty additions and deletions, for
every options object, coercion enabled or not. -/
theorem c4_top_level_part (a b : JsVal) (options : DiffOptions)
    (ha : isNullish a = false) (hb : isNullish b = false)
    (ht : typeOf a ≠ typeOf b) :
    diff a b options = ⟨emptyRec, emptyRec, fromTo a b⟩ := by
  unfold diff
  rw [internalDiff_eq]
  exact diffBody_typeOf_ne _ _ a b [] _ ha hb ht


theorem typeOf_of_isArray {v : JsVal} (h : isArray v = true) : typeOf v = "object" := by
  cases v <;> simp_all [isArray, typeOf]

theorem bothPlain_false {a b : JsVal} (ht : typeOf a ≠ typeOf b) :
    (isPlainObject a && isPlainObject b) = false := by
  cases h1 : isPlainObject a with
  | false => rfl
  | true =>
    cases h2 : isPlainObject b with
    | false => simp
    | true =>
      exact absurd ((typeOf_of_isPlainObject h1).trans (typeOf_of_isPlainObject h2).symm) ht

theorem bothArray_false {a b : JsVal} (ht : typeOf a ≠ typeOf b) :
    (isArray a && isArray b) = false := by
  cases h1 : isArray a with
  | false => rfl
  | true =>
    cases h2 : isArray b with
    | false => simp
    | true => exact absurd ((typeOf_of_isArray h1).trans (typeOf_of_isArray h2).symm) ht

theorem comparePrimitives_coerce {a b : JsVal} (hs : strictEq a b = false) :
    comparePrimitives a b true = (coerceValues a b).areEqual := by
  simp [comparePrimitives, hs]

theorem addLoop_nil (objA objB : Fields) (fuel : Nat) (path : List String)
    (opts : ResolvedOptions) (idn : JsVal → JsVal → List String → DiffResult)
    (r : DiffResult) : addLoop objA objB fuel path opts idn [] r = r := rfl

theorem addLoop_cons (objA objB : Fields) (fuel : Nat) (path : List String)
    (opts : ResolvedOptions) (idn : JsVal → JsVal → List String → DiffResult)
    (key : String) (rest : List String) (r : DiffResult) :
    addLoop objA objB fuel path opts idn (key :: rest) r =
      addLoop objA objB fuel path opts idn rest (addStep objA objB fuel path opts idn key r) := rfl

theorem addStep_prim (objA objB : Fields) (fuel : Nat) (path : List String)
    (opts : ResolvedOptions) (idn : JsVal → JsVal → List String → DiffResult)
    (key : String) (r : DiffResult) {va vb : JsVal}
    (hig : shouldIgnoreProperty (currentPathOf path key) opts.ignoreProperties = false)
    (ha : jsGet objA key = some va) (hb : jsGet objB key = some vb)
    (hgate : (isPlainObject va && isPlainObject vb) = false)
    (harr : (isArray va && isArray vb) = false) :
    addStep objA objB fuel path opts idn key r =
      if !comparePrimitives va vb opts.enableTypeCoercion then
        { r with updates := recSet r.updates key (fromTo va vb) }
      else r := by
  have hk : hasKey objA key = true := by simp [hasKey, ha]
  have hja : jsIndex objA key = va := by simp [jsIndex, ha]
  have hjb : jsIndex objB key = vb := by simp [jsIndex, hb]
  rw [addStep]
  rw [if_neg (by simp [hig]), if_neg (by simp [hk])]
  simp only [hja, hjb]
  rw [if_neg (by simp [Bool.and_eq_true] at hgate ⊢; tauto),
    if_neg (by simp [Bool.and_eq_true] at harr ⊢; tauto)]

/-- C4: coercion asymmetry between the top level and one level down.  First
part: when the two non-nullish top-level arguments have differing typeof
kinds, the result is the single update from/to with empty additions and
deletions, for every options object, so regardless of enableTypeCoercion —
coercion is never consulted at the top level.  Second part: the same pair of
differing-typeof values placed under a common key of two plain objects (with
default options, so coercion enabled) is resolved through coerceValues: no
update entry exactly when the coercion rules declare the pair equal. -/
theorem c4_top_level_coercion_asymmetry :
    (∀ (a b : JsVal) (options : DiffOptions),
      isNullish a = false → isNullish b = false → typeOf a ≠ typeOf b →
      diff a b options = ⟨emptyRec, emptyRec, fromTo a b⟩) ∧
    (∀ (a b : JsVal),
      typeOf a ≠ typeOf b →
      diff (.obj 1 [("k", a)]) (.obj 2 [("k", b)]) noOverrides =
        if (coerceValues a b).areEqual then emptyResult
        else ⟨emptyRec, emptyRec, .obj 0 [("k", fromTo a b)]⟩) := by
  constructor
  · intro a b options ha hb ht
    unfold diff
    rw [internalDiff_eq]
    exact diffBody_typeOf_ne _ _ a b [] _ ha hb ht
  · intro a b ht
    have h0 : diff (.obj 1 [("k", a)]) (.obj 2 [("k", b)]) noOverrides =
        addLoop [("k", a)] [("k", b)] 10 [] DEFAULT_OPTIONS
          (nextLevel 10 DEFAULT_OPTIONS) ["k"] emptyResult := by
      show internalDiff 10 _ _ [] DEFAULT_OPTIONS = _
      rw [internalDiff_eq]
      rfl
    rw [h0, addLoop_cons, addLoop_nil,
      @addStep_prim [("k", a)] [("k", b)] 10 [] DEFAULT_OPTIONS
        (nextLevel 10 DEFAULT_OPTIONS) "k" emptyResult a b (by rfl) (by rfl) (by rfl)
        (bothPlain_false ht) (bothArray_false ht)]
    rw [show DEFAULT_OPTIONS.enableTypeCoercion = true from rfl,
      comparePrimitives_coerce (strictEq_false_of_typeOf_ne ht)]
    cases hc : (coerceValues a b).areEqual <;> rfl

/-- C4 witness: at the pair 30 and the numeric string "30", the top level
reports an update even though the pair is coercion-equal, while the same pair
one level down under a common key yields the all-empty result. -/
theorem c4_witness :
    diff (.num (.fin 30)) (.str "30") noOverrides
        = ⟨emptyRec, emptyRec, fromTo (.num (.fin 30)) (.str "30")⟩ ∧
    diff (.obj 1 [("k", .num (.fin 30))]) (.obj 2 [("k", .str "30")]) noOverrides
        = emptyResult := by
  constructor
  · exact c4_top_level_coercion_asymmetry.1 (.num (.fin 30)) (.str "30") noOverrides
      rfl rfl (by decide)
  · rw [c4_top_level_coercion_asymmetry.2 (.num (.fin 30)) (.str "30") (by decide)]
    rfl

/-- C5: the number/string coercion rule.  First part: with coercion enabled,
comparePrimitives equates a number n with a string s exactly when the string
parses to a finite number equal to n (an unparseable string is never equal,
and NaN is equal to nothing).  Second part: concretely, diffing the object
with age 30 against the object with age "30" under default options yields the
all-empty result. -/
theorem c5_number_string_coercion :
    (∀ (n : JsNum) (s : String),
      comparePrimitives (.num n) (.str s) true = true ↔
        ∃ q : ℚ, jsToNumber s = .fin q ∧ n = .fin q) ∧
    diff (.obj 1 [("age", .num (.fin 30))]) (.obj 2 [("age", .str "30")]) noOverrides
      = emptyResult := by
  refine ⟨?_, rfl⟩
  intro n s
  rw [@comparePrimitives_coerce (.num n) (.str s) rfl]
  show (coerceValues (.num n) (.str s)).areEqual = true ↔ _
  rw [coerceValues]
  rw [if_neg (by simp [isNullish]), if_neg (by simp [isNullish]), if_neg (by simp [typeOf])]
  cases hp : jsToNumber s with
  | nan => simp [jsNumIsNaN]
  | fin q =>
    cases n with
    | nan => simp [jsNumIsNaN, jsNumEq]
    | fin p => simp [jsNumIsNaN, jsNumEq, eq_comm]


/-- First-wins choice on optional entries (the earlier write of a key is
never overwritten by a later different value, because the per-key outcome of
each pass is a function of the key alone). -/
def ofirst (a b : Option JsVal) : Option JsVal :=
  match a with
  | some v => some v
  | none => b

/-- The per-key outcome of the deletions pass: the value recorded under the
key by delStep, none when the pass leaves the key untouched. -/
def delOutcome (objA objB : Fields) (path : List String) (opts : ResolvedOptions)
    (k : String) : Option JsVal :=
  if shouldIgnoreProperty (currentPathOf path k) opts.ignoreProperties then none
  else if !hasKey objB k then some (jsIndex objA k)
  else none

/-- The per-key additions outcome of the additions/updates pass. -/
def addOutcomeAdd (objA objB : Fields) (fuel : Nat) (path : List String)
    (opts : ResolvedOptions) (idn : JsVal → JsVal → List String → DiffResult)
    (k : String) : Option JsVal :=
  if shouldIgnoreProperty (currentPathOf path k) opts.ignoreProperties then none
  else if !hasKey objA k then some (jsIndex objB k)
  else if 0 < fuel && isPlainObject (jsIndex objA k) && isPlainObject (jsIndex objB k) then
    if !(jsKeys (idn (jsIndex objA k) (jsIndex objB k) (path ++ [k])).additions).isEmpty then
      some (idn (jsIndex objA k) (jsIndex objB k) (path ++ [k])).additions
    else none
  else none

/-- The per-key deletions outcome of the additions/updates pass (only the
nested plain-object case can record a deletion there). -/
def addOutcomeDel (objA objB : Fields) (fuel : Nat) (path : List String)
    (opts : ResolvedOptions) (idn : JsVal → JsVal → List String → DiffResult)
    (k : String) : Option JsVal :=
  if shouldIgnoreProperty (currentPathOf path k) opts.ignoreProperties then none
  else if !hasKey objA k then none
  else if 0 < fuel && isPlainObject (jsIndex objA k) && isPlainObject (jsIndex objB k) then
    if !(jsKeys (idn (jsIndex objA k) (jsIndex objB k) (path ++ [k])).deletions).isEmpty then
      some (idn (jsIndex objA k) (jsIndex objB k) (path ++ [k])).deletions
    else none
  else none

/-- The per-key updates outcome of the additions/updates pass. -/
def addOutcomeUpd (objA objB : Fields) (fuel : Nat) (path : List String)
    (opts : ResolvedOptions) (idn : JsVal → JsVal → List String → DiffResult)
    (k : String) : Option JsVal :=
  if shouldIgnoreProperty (currentPathOf path k) opts.ignoreProperties then none
  else if !hasKey objA k then none
  else if 0 < fuel && isPlainObject (jsIndex objA k) && isPlainObject (jsIndex objB k) then
    if !(jsKeys (idn (jsIndex objA k) (jsIndex objB k) (path ++ [k])).updates).isEmpty then
      some (idn (jsIndex objA k) (jsIndex objB k) (path ++ [k])).updates
    else none
  else if isArray (jsIndex objA k) && isArray (jsIndex objB k) then
    if !compareArrays (elemsOf (jsIndex objA k)) (elemsOf (jsIndex objB k)) fuel
        (path ++ [k]) opts idn then
      some (fromTo (jsIndex objA k) (jsIndex objB k))
    else none
  else
    if !comparePrimitives (jsIndex objA k) (jsIndex objB k) opts.enableTypeCoercion then
      some (fromTo (jsIndex objA k) (jsIndex objB k))
    else none

theorem delStep_additions (objA objB : Fields) (path : List String)
    (opts : ResolvedOptions) (key : String) (r : DiffResult) :
    (delStep objA objB path opts key r).additions = r.additions := by
  unfold delStep
  split_ifs <;> rfl

theorem delStep_updates (objA objB : Fields) (path : List String)
    (opts : ResolvedOptions) (key : String) (r : DiffResult) :
    (delStep objA objB path opts key r).updates = r.updates := by
  unfold delStep
  split_ifs <;> rfl

theorem delStep_record (objA objB : Fields) (path : List String)
    (opts : ResolvedOptions) (key : String) (r : DiffResult)
    (h : isRecordB r.deletions = true) :
    isRecordB (delStep objA objB path opts key r).deletions = true := by
  unfold delStep
  split_ifs <;> simp [isRecordB_recSet h, h]

theorem delStep_get_ne (objA objB : Fields) (path : List String)
    (opts : ResolvedOptions) (key : String) (r : DiffResult) (k : String)
    (hk : k ≠ key) :
    recGet (delStep objA objB path opts key r).deletions k = recGet r.deletions k := by
  unfold delStep
  split_ifs <;> simp [recGet_recSet_ne _ _ _ _ hk]

theorem delStep_get_self (objA objB : Fields) (path : List String)
    (opts : ResolvedOptions) (key : String) (r : DiffResult)
    (h : isRecordB r.deletions = true) :
    recGet (delStep objA objB path opts key r).deletions key =
      ofirst (delOutcome objA objB path opts key) (recGet r.deletions key) := by
  unfold delStep delOutcome
  split_ifs <;> simp [ofirst, recGet_recSet_self_of_record h]

theorem delLoop_additions (objA objB : Fields) (path : List String)
    (opts : ResolvedOptions) (ks : List String) (r : DiffResult) :
    (delLoop objA objB path opts ks r).additions = r.additions := by
  induction ks generalizing r with
  | nil => rfl
  | cons key rest ih => rw [delLoop, ih, delStep_additions]

theorem delLoop_updates (objA objB : Fields) (path : List String)
    (opts : ResolvedOptions) (ks : List String) (r : DiffResult) :
    (delLoop objA objB path opts ks r).updates = r.updates := by
  induction ks generalizing r with
  | nil => rfl
  | cons key rest ih => rw [delLoop, ih, delStep_updates]

theorem delLoop_record (objA objB : Fields) (path : List String)
    (opts : ResolvedOptions) (ks : List String) (r : DiffResult)
    (h : isRecordB r.deletions = true) :
    isRecordB (delLoop objA objB path opts ks r).deletions = true := by
  induction ks generalizing r with
  | nil => exact h
  | cons key rest ih => rw [delLoop]; exact ih _ (delStep_record _ _ _ _ _ _ h)

theorem delLoop_get (objA objB : Fields) (path : List String)
    (opts : ResolvedOptions) (ks : List String) (r : DiffResult)
    (h : isRecordB r.deletions = true) (k : String) :
    recGet (delLoop objA objB path opts ks r).deletions k =
      if k ∈ ks ∧ (delOutcome objA objB path opts k).isSome
      then delOutcome objA objB path opts k
      else recGet r.deletions k := by
  induction ks generalizing r with
  | nil => simp [delLoop]
  | cons key rest ih =>
    rw [delLoop, ih _ (delStep_record _ _ _ _ _ _ h)]
    by_cases hk : k = key
    · subst hk
      rw [delStep_get_self _ _ _ _ _ _ h]
      by_cases hs : (delOutcome objA objB path opts k).isSome
      · obtain ⟨v, hv⟩ := Option.isSome_iff_exists.mp hs
        by_cases hmem : k ∈ rest <;> simp [hv, hmem, hs, ofirst]
      · have hnone : delOutcome objA objB path opts k = none :=
          Option.not_isSome_iff_eq_none.mp hs
        by_cases hmem : k ∈ rest <;> simp [hnone, hmem, ofirst]
    · rw [delStep_get_ne _ _ _ _ _ _ _ hk]
      simp [List.mem_cons, hk]


theorem addStep_record_additions (objA objB : Fields) (fuel : Nat) (path : List String)
    (opts : ResolvedOptions) (idn : JsVal → JsVal → List String → DiffResult)
    (key : String) (r : DiffResult) (h : isRecordB r.additions = true) :
    isRecordB (addStep objA objB fuel path opts idn key r).additions = true := by
  simp only [addStep]
  split_ifs <;> simp [isRecordB_recSet h, h]

theorem addStep_record_deletions (objA objB : Fields) (fuel : Nat) (path : List String)
    (opts : ResolvedOptions) (idn : JsVal → JsVal → List String → DiffResult)
    (key : String) (r : DiffResult) (h : isRecordB r.deletions = true) :
    isRecordB (addStep objA objB fuel path opts idn key r).deletions = true := by
  simp only [addStep]
  split_ifs <;> simp [isRecordB_recSet h, h]

theorem addStep_record_updates (objA objB : Fields) (fuel : Nat) (path : List String)
    (opts : ResolvedOptions) (idn : JsVal → JsVal → List String → DiffResult)
    (key : String) (r : DiffResult) (h : isRecordB r.updates = true) :
    isRecordB (addStep objA objB fuel path opts idn key r).updates = true := by
  simp only [addStep]
  split_ifs <;> simp [isRecordB_recSet h, h]

theorem addStep_get_ne_additions (objA objB : Fields) (fuel : Nat) (path : List String)
    (opts : ResolvedOptions) (idn : JsVal → JsVal → List String → DiffResult)
    (key : String) (r : DiffResult) (k : String) (hk : k ≠ key) :
    recGet (addStep objA objB fuel path opts idn key r).additions k =
      recGet r.additions k := by
  simp only [addStep]
  split_ifs <;> simp [recGet_recSet_ne _ _ _ _ hk]

theorem addStep_get_ne_deletions (objA objB : Fields) (fuel : Nat) (path : List String)
    (opts : ResolvedOptions) (idn : JsVal → JsVal → List String → DiffResult)
    (key : String) (r : DiffResult) (k : String) (hk : k ≠ key) :
    recGet (addStep objA objB fuel path opts idn key r).deletions k =
      recGet r.deletions k := by
  simp only [addStep]
  split_ifs <;> simp [recGet_recSet_ne _ _ _ _ hk]

theorem addStep_get_ne_updates (objA objB : Fields) (fuel : Nat) (path : List String)
    (opts : ResolvedOptions) (idn : JsVal → JsVal → List String → DiffResult)
    (key : String) (r : DiffResult) (k : String) (hk : k ≠ key) :
    recGet (addStep objA objB fuel path opts idn key r).updates k =
      recGet r.updates k := by
  simp only [addStep]
  split_ifs <;> simp [recGet_recSet_ne _ _ _ _ hk]

theorem addStep_get_self_additions (objA objB : Fields) (fuel : Nat) (path : List String)
    (opts : ResolvedOptions) (idn : JsVal → JsVal → List String → DiffResult)
    (key : String) (r : DiffResult) (h : isRecordB r.additions = true) :
    recGet (addStep objA objB fuel path opts idn key r).additions key =
      ofirst (addOutcomeAdd objA objB fuel path opts idn key) (recGet r.additions key) := by
  simp only [addStep, addOutcomeAdd]
  split_ifs <;> simp [ofirst, recGet_recSet_self_of_record h]

theorem addStep_get_self_deletions (objA objB : Fields) (fuel : Nat) (path : List String)
    (opts : ResolvedOptions) (idn : JsVal → JsVal → List String → DiffResult)
    (key : String) (r : DiffResult) (h : isRecordB r.deletions = true) :
    recGet (addStep objA objB fuel path opts idn key r).deletions key =
      ofirst (addOutcomeDel objA objB fuel path opts idn key) (recGet r.deletions key) := by
  simp only [addStep, addOutcomeDel]
  split_ifs <;> simp [ofirst, recGet_recSet_self_of_record h,
    recGet_recSet_self_of_record (isRecordB_recSet h _ _)]

theorem addStep_get_self_updates (objA objB : Fields) (fuel : Nat) (path : List String)
    (opts : ResolvedOptions) (idn : JsVal → JsVal → List String → DiffResult)
    (key : String) (r : DiffResult) (h : isRecordB r.updates = true) :
    recGet (addStep objA objB fuel path opts idn key r).updates key =
      ofirst (addOutcomeUpd objA objB fuel path opts idn key) (recGet r.updates key) := by
  simp only [addStep, addOutcomeUpd]
  split_ifs <;> simp [ofirst, recGet_recSet_self_of_record h,
    recGet_recSet_self_of_record (isRecordB_recSet h _ _)]


theorem addLoop_get_additions (objA objB : Fields) (fuel : Nat) (path : List String)
    (opts : ResolvedOptions) (idn : JsVal → JsVal → List String → DiffResult)
    (ks : List String) (r : DiffResult) (h : isRecordB r.additions = true) (k : String) :
    recGet (addLoop objA objB fuel path opts idn ks r).additions k =
      if k ∈ ks ∧ (addOutcomeAdd objA objB fuel path opts idn k).isSome
      then addOutcomeAdd objA objB fuel path opts idn k
      else recGet r.additions k := by
  induction ks generalizing r with
  | nil => simp [addLoop]
  | cons key rest ih =>
    rw [addLoop, ih _ (addStep_record_additions _ _ _ _ _ _ _ _ h)]
    by_cases hk : k = key
    · subst hk
      rw [addStep_get_self_additions _ _ _ _ _ _ _ _ h]
      by_cases hs : (addOutcomeAdd objA objB fuel path opts idn k).isSome
      · obtain ⟨v, hv⟩ := Option.isSome_iff_exists.mp hs
        by_cases hmem : k ∈ rest <;> simp [hv, hmem, hs, ofirst]
      · have hnone : addOutcomeAdd objA objB fuel path opts idn k = none :=
          Option.not_isSome_iff_eq_none.mp hs
        by_cases hmem : k ∈ rest <;> simp [hnone, hmem, ofirst]
    · rw [addStep_get_ne_additions _ _ _ _ _ _ _ _ _ hk]
      simp [List.mem_cons, hk]

theorem addLoop_get_deletions (objA objB : Fields) (fuel : Nat) (path : List String)
    (opts : ResolvedOptions) (idn : JsVal → JsVal → List String → DiffResult)
    (ks : List String) (r : DiffResult) (h : isRecordB r.deletions = true) (k : String) :
    recGet (addLoop objA objB fuel path opts idn ks r).deletions k =
      if k ∈ ks ∧ (addOutcomeDel objA objB fuel path opts idn k).isSome
      then addOutcomeDel objA objB fuel path opts idn k
      else recGet r.deletions k := by
  induction ks generalizing r with
  | nil => simp [addLoop]
  | cons key rest ih =>
    rw [addLoop, ih _ (addStep_record_deletions _ _ _ _ _ _ _ _ h)]
    by_cases hk : k = key
    · subst hk
      rw [addStep_get_self_deletions _ _ _ _ _ _ _ _ h]
      by_cases hs : (addOutcomeDel objA objB fuel path opts idn k).isSome
      · obtain ⟨v, hv⟩ := Option.isSome_iff_exists.mp hs
        by_cases hmem : k ∈ rest <;> simp [hv, hmem, hs, ofirst]
      · have hnone : addOutcomeDel objA objB fuel path opts idn k = none :=
          Option.not_isSome_iff_eq_none.mp hs
        by_cases hmem : k ∈ rest <;> simp [hnone, hmem, ofirst]
    · rw [addStep_get_ne_deletions _ _ _ _ _ _ _ _ _ hk]
      simp [List.mem_cons, hk]

theorem addLoop_get_updates (objA objB : Fields) (fuel : Nat) (path : List String)
    (opts : ResolvedOptions) (idn : JsVal → JsVal → List String → DiffResult)
    (ks : List String) (r : DiffResult) (h : isRecordB r.updates = true) (k : String) :
    recGet (addLoop objA objB fuel path opts idn ks r).updates k =
      if k ∈ ks ∧ (addOutcomeUpd objA objB fuel path opts idn k).isSome
      then addOutcomeUpd objA objB fuel path opts idn k
      else recGet r.updates k := by
  induction ks generalizing r with
  | nil => simp [addLoop]
  | cons key rest ih =>
    rw [addLoop, ih _ (addStep_record_updates _ _ _ _ _ _ _ _ h)]
    by_cases hk : k = key
    · subst hk
      rw [addStep_get_self_updates _ _ _ _ _ _ _ _ h]
      by_cases hs : (addOutcomeUpd objA objB fuel path opts idn k).isSome
      · obtain ⟨v, hv⟩ := Option.isSome_iff_exists.mp hs
        by_cases hmem : k ∈ rest <;> simp [hv, hmem, hs, ofirst]
      · have hnone : addOutcomeUpd objA objB fuel path opts idn k = none :=
          Option.not_isSome_iff_eq_none.mp hs
        by_cases hmem : k ∈ rest <;> simp [hnone, hmem, ofirst]
    · rw [addStep_get_ne_updates _ _ _ _ _ _ _ _ _ hk]
      simp [List.mem_cons, hk]

/-- Entry provenance of compareObjects, additions map: an entry under a key
exists exactly when the key is a key of objB and the additions outcome of its
addStep iteration produced one. -/
theorem compareObjects_get_additions (objA objB : Fields) (fuel : Nat)
    (path : List String) (opts : ResolvedOptions)
    (idn : JsVal → JsVal → List String → DiffResult) (k : String) :
    recGet (compareObjects objA objB fuel path opts idn).additions k =
      if k ∈ objB.map Prod.fst then addOutcomeAdd objA objB fuel path opts idn k
      else none := by
  unfold compareObjects
  rw [addLoop_get_additions _ _ _ _ _ _ _ _ (by rw [delLoop_additions]; rfl) k]
  rw [delLoop_additions]
  by_cases hmem : k ∈ objB.map Prod.fst
  · by_cases hs : (addOutcomeAdd objA objB fuel path opts idn k).isSome
    · simp [hmem, hs]
    · have hnone : addOutcomeAdd objA objB fuel path opts idn k = none :=
        Option.not_isSome_iff_eq_none.mp hs
      simp [hmem, hnone, emptyResult, emptyRec, recGet, jsGet]
  · simp [hmem, emptyResult, emptyRec, recGet, jsGet]

/-- Entry provenance of compareObjects, updates map. -/
theorem compareObjects_get_updates (objA objB : Fields) (fuel : Nat)
    (path : List String) (opts : ResolvedOptions)
    (idn : JsVal → JsVal → List String → DiffResult) (k : String) :
    recGet (compareObjects objA objB fuel path opts idn).updates k =
      if k ∈ objB.map Prod.fst then addOutcomeUpd objA objB fuel path opts idn k
      else none := by
  unfold compareObjects
  rw [addLoop_get_updates _ _ _ _ _ _ _ _ (by rw [delLoop_updates]; rfl) k]
  rw [delLoop_updates]
  by_cases hmem : k ∈ objB.map Prod.fst
  · by_cases hs : (addOutcomeUpd objA objB fuel path opts idn k).isSome
    · simp [hmem, hs]
    · have hnone : addOutcomeUpd objA objB fuel path opts idn k = none :=
        Option.not_isSome_iff_eq_none.mp hs
      simp [hmem, hnone, emptyResult, emptyRec, recGet, jsGet]
  · simp [hmem, emptyResult, emptyRec, recGet, jsGet]

/-- Entry provenance of compareObjects, deletions map: an entry comes either
from the nested-recursion case of the additions/updates pass (key of objB) or
from the deletions pass (key of objA absent from objB); at most one of the two
can fire for a given key. -/
theorem compareObjects_get_deletions (objA objB : Fields) (fuel : Nat)
    (path : List String) (opts : ResolvedOptions)
    (idn : JsVal → JsVal → List String → DiffResult) (k : String) :
    recGet (compareObjects objA objB fuel path opts idn).deletions k =
      if k ∈ objB.map Prod.fst ∧ (addOutcomeDel objA objB fuel path opts idn k).isSome
      then addOutcomeDel objA objB fuel path opts idn k
      else if k ∈ objA.map Prod.fst then delOutcome objA objB path opts k
      else none := by
  unfold compareObjects
  rw [addLoop_get_deletions objA objB fuel path opts idn (objB.map Prod.fst)
    (delLoop objA objB path opts (objA.map Prod.fst) emptyResult)
    (delLoop_record objA objB path opts (objA.map Prod.fst) emptyResult rfl) k]
  rw [delLoop_get objA objB path opts (objA.map Prod.fst) emptyResult rfl k]
  by_cases hmem : k ∈ objA.map Prod.fst
  · by_cases hs : (delOutcome objA objB path opts k).isSome
    · simp [hmem, hs]
    · have hnone : delOutcome objA objB path opts k = none :=
        Option.not_isSome_iff_eq_none.mp hs
      simp [hmem, hnone, emptyResult, emptyRec, recGet, jsGet]
  · simp [hmem, emptyResult, emptyRec, recGet, jsGet]


/-- C3 counterexample: with the ignore pattern user.pass, diffing the empty
object against an object whose user field holds a pass field records the
whole user subtree as an addition, so the matching path user.pass does appear
inside the additions map of diff (as part of the wholesale-copied value). -/
theorem c3_counterexample :
    shouldIgnoreProperty "user.pass" ["user.pass"] = true ∧
    recGet ((recGet (diff (.obj 1 []) (.obj 2 [("user", .obj 3 [("pass", .num (.fin 1))])])
        ⟨some ["user.pass"], none, none, none⟩).additions "user").getD .vundefined) "pass"
      = some (.num (.fin 1)) :=
  ⟨rfl, rfl⟩

/-- C3 (amended): whenever compareObjects compares two plain objects at some
path — which is every level the recursion encounters, since every nested map
comes from a nested compareObjects invocation at the extended path — a key
whose current path matches an ignore pattern is never inserted into the
additions, deletions or updates map produced at that level, regardless of the
fields around it, the depth budget, or the nested diff function.  Matching
paths can still occur inside wholesale-copied values: the top-level null
replacement case, full-subtree additions and deletions, and from/to update
payloads copy values verbatim without traversing them. -/
theorem c3_ignored_keys_never_entered
    (objA objB : Fields) (fuel : Nat) (path : List String) (opts : ResolvedOptions)
    (idn : JsVal → JsVal → List String → DiffResult) (k : String)
    (hig : shouldIgnoreProperty (currentPathOf path k) opts.ignoreProperties = true) :
    k ∉ jsKeys (compareObjects objA objB fuel path opts idn).additions ∧
    k ∉ jsKeys (compareObjects objA objB fuel path opts idn).deletions ∧
    k ∉ jsKeys (compareObjects objA objB fuel path opts idn).updates := by
  refine ⟨?_, ?_, ?_⟩ <;>
    simp [mem_jsKeys_iff_recGet, compareObjects_get_additions,
      compareObjects_get_deletions, compareObjects_get_updates,
      addOutcomeAdd, addOutcomeDel, addOutcomeUpd, delOutcome, hig]

/-- C3 witness instance: a concrete ignored key is absent from all three maps
produced at its level while a sibling difference is still reported. -/
theorem c3_witness :
    "secret" ∉ jsKeys (compareObjects [("secret", .num (.fin 1)), ("a", .num (.fin 1))]
        [("a", .num (.fin 2))] 10 [] ⟨["secret"], true, true, 10⟩
        (fun _ _ _ => emptyResult)).additions ∧
    "secret" ∉ jsKeys (compareObjects [("secret", .num (.fin 1)), ("a", .num (.fin 1))]
        [("a", .num (.fin 2))] 10 [] ⟨["secret"], true, true, 10⟩
        (fun _ _ _ => emptyResult)).deletions ∧
    "secret" ∉ jsKeys (compareObjects [("secret", .num (.fin 1)), ("a", .num (.fin 1))]
        [("a", .num (.fin 2))] 10 [] ⟨["secret"], true, true, 10⟩
        (fun _ _ _ => emptyResult)).updates :=
  c3_ignored_keys_never_entered _ _ 10 [] _ _ "secret" rfl


theorem comparePrimitives_plain_false {va vb : JsVal} (hva : isPlainObject va = true)
    (hvb : isPlainObject vb = true) (hs : strictEq va vb = false) (c : Bool) :
    comparePrimitives va vb c = false := by
  obtain ⟨i, fs, rfl⟩ := (isPlainObject_iff va).1 hva
  obtain ⟨j, gs, rfl⟩ := (isPlainObject_iff vb).1 hvb
  cases c <;> simp [comparePrimitives, hs, coerceValues, isNullish, typeOf]

theorem isArray_of_isPlainObject {v : JsVal} (h : isPlainObject v = true) :
    isArray v = false := by
  obtain ⟨i, fs, rfl⟩ := (isPlainObject_iff v).1 h
  rfl

/-- C7: depth-boundary opacity.  First part: in any field-wise object
comparison whose remaining depth budget is exhausted (fuel 0, i.e. depth has
reached maxDepth — with maxDepth 0 this happens at every level), a key held
by both objects with plain-object values on both sides is compared as an
opaque primitive: whenever the two references differ (strict equality false),
an update entry from/to the two objects is recorded, regardless of their
contents.  Second part: with maxDepth 0, diffing two single-key objects whose
values are distinct references with identical field lists reports exactly
that update, though the contents are structurally equal. -/
theorem c7_depth_boundary_opacity :
    (∀ (objA objB : Fields) (path : List String) (opts : ResolvedOptions)
       (idn : JsVal → JsVal → List String → DiffResult) (k : String) (va vb : JsVal),
       jsGet objA k = some va → jsGet objB k = some vb →
       isPlainObject va = true → isPlainObject vb = true →
       shouldIgnoreProperty (currentPathOf path k) opts.ignoreProperties = false →
       strictEq va vb = false →
       recGet (compareObjects objA objB 0 path opts idn).updates k = some (fromTo va vb)) ∧
    (∀ (k : String) (i1 i2 o1 o2 : Nat) (fl : Fields),
       i1 ≠ i2 →
       diff (.obj o1 [(k, .obj i1 fl)]) (.obj o2 [(k, .obj i2 fl)])
           ⟨none, none, none, some 0⟩
         = ⟨emptyRec, emptyRec, .obj 0 [(k, fromTo (.obj i1 fl) (.obj i2 fl))]⟩) := by
  constructor
  · intro objA objB path opts idn k va vb ha hb hva hvb hig hs
    have hmemB : k ∈ objB.map Prod.fst := jsGet_isSome_iff_mem.mp (by simp [hb])
    have hkA : hasKey objA k = true := by simp [hasKey, ha]
    have hja : jsIndex objA k = va := by simp [jsIndex, ha]
    have hjb : jsIndex objB k = vb := by simp [jsIndex, hb]
    rw [compareObjects_get_updates, if_pos hmemB, addOutcomeUpd, if_neg (by simp [hig]),
      if_neg (by simp [hkA])]
    rw [hja, hjb]
    rw [if_neg (by simp), if_neg (by simp [isArray_of_isPlainObject hva]),
      if_pos (by simp [comparePrimitives_plain_false hva hvb hs])]
  · intro k i1 i2 o1 o2 fl hne
    have hs : strictEq (JsVal.obj i1 fl) (JsVal.obj i2 fl) = false := by
      simp [strictEq, hne]
    have hcp := @comparePrimitives_plain_false (.obj i1 fl) (.obj i2 fl) rfl rfl hs true
    show internalDiff 0 _ _ [] _ = _
    rw [internalDiff_eq]
    show compareObjects [(k, .obj i1 fl)] [(k, .obj i2 fl)] 0 []
      ⟨[], true, true, 0⟩ (nextLevel 0 ⟨[], true, true, 0⟩) = _
    have hkA : hasKey [(k, JsVal.obj i1 fl)] k = true := by simp [hasKey, jsGet]
    have hkB : hasKey [(k, JsVal.obj i2 fl)] k = true := by simp [hasKey, jsGet]
    have hdel : delLoop [(k, JsVal.obj i1 fl)] [(k, JsVal.obj i2 fl)] []
        ⟨[], true, true, 0⟩ [k] emptyResult = emptyResult := by
      rw [delLoop, delStep, if_neg (by simp [shouldIgnoreProperty_nil]),
        if_neg (by simp [hkB])]
      rfl
    unfold compareObjects
    simp only [List.map]
    rw [hdel, addLoop, addLoop_nil, addStep]
    rw [if_neg (by simp [shouldIgnoreProperty_nil]), if_neg (by simp [hkA])]
    have hja : jsIndex [(k, JsVal.obj i1 fl)] k = .obj i1 fl := by simp [jsIndex, jsGet]
    have hjb : jsIndex [(k, JsVal.obj i2 fl)] k = .obj i2 fl := by simp [jsIndex, jsGet]
    simp only [hja, hjb]
    rw [if_neg (by simp), if_neg (by simp [isArray]), if_pos (by simp [hcp])]
    rfl

/-- C7 witness: two distinct single-field empty-content objects under
maxDepth 0, both through the general boundary statement and the concrete
diff run. -/
theorem c7_witness :
    recGet (compareObjects [("k", .obj 3 [])] [("k", .obj 4 [])] 0 []
        ⟨[], true, true, 0⟩ (fun _ _ _ => emptyResult)).updates "k"
      = some (fromTo (.obj 3 []) (.obj 4 [])) ∧
    diff (.obj 1 [("k", .obj 3 [("a", .num (.fin 1))])])
        (.obj 2 [("k", .obj 4 [("a", .num (.fin 1))])]) ⟨none, none, none, some 0⟩
      = ⟨emptyRec, emptyRec,
         .obj 0 [("k", fromTo (.obj 3 [("a", .num (.fin 1))]) (.obj 4 [("a", .num (.fin 1))]))]⟩ :=
  ⟨c7_depth_boundary_opacity.1 [("k", .obj 3 [])] [("k", .obj 4 [])] [] ⟨[], true, true, 0⟩
      (fun _ _ _ => emptyResult) "k" (.obj 3 []) (.obj 4 []) rfl rfl rfl rfl rfl rfl,
   c7_depth_boundary_opacity.2 "k" 3 4 1 2 [("a", .num (.fin 1))] (by decide)⟩


theorem addOutcomeAdd_isSome {objA objB : Fields} {fuel : Nat} {path : List String}
    {opts : ResolvedOptions} {idn : JsVal → JsVal → List String → DiffResult} {k : String}
    (h : (addOutcomeAdd objA objB fuel path opts idn k).isSome = true) :
    shouldIgnoreProperty (currentPathOf path k) opts.ignoreProperties = false ∧
    (hasKey objA k = false ∨
      (hasKey objA k = true ∧
        (0 < fuel && isPlainObject (jsIndex objA k) && isPlainObject (jsIndex objB k)) = true)) := by
  unfold addOutcomeAdd at h
  split_ifs at h <;> simp_all

theorem addOutcomeDel_isSome {objA objB : Fields} {fuel : Nat} {path : List String}
    {opts : ResolvedOptions} {idn : JsVal → JsVal → List String → DiffResult} {k : String}
    (h : (addOutcomeDel objA objB fuel path opts idn k).isSome = true) :
    shouldIgnoreProperty (currentPathOf path k) opts.ignoreProperties = false ∧
    hasKey objA k = true ∧
    (0 < fuel && isPlainObject (jsIndex objA k) && isPlainObject (jsIndex objB k)) = true := by
  unfold addOutcomeDel at h
  split_ifs at h <;> simp_all

theorem addOutcomeUpd_isSome {objA objB : Fields} {fuel : Nat} {path : List String}
    {opts : ResolvedOptions} {idn : JsVal → JsVal → List String → DiffResult} {k : String}
    (h : (addOutcomeUpd objA objB fuel path opts idn k).isSome = true) :
    shouldIgnoreProperty (currentPathOf path k) opts.ignoreProperties = false ∧
    hasKey objA k = true := by
  unfold addOutcomeUpd at h
  split_ifs at h <;> simp_all

theorem delOutcome_isSome {objA objB : Fields} {path : List String}
    {opts : ResolvedOptions} {k : String}
    (h : (delOutcome objA objB path opts k).isSome = true) :
    shouldIgnoreProperty (currentPathOf path k) opts.ignoreProperties = false ∧
    hasKey objB k = false := by
  unfold delOutcome at h
  split_ifs at h <;> simp_all

/-- Under the nested-recursion configuration of a key (not ignored, present in
both objects, both values plain objects, depth budget open), every entry the
key receives in the three maps of compareObjects is the corresponding map of
the nested diff of its two values. -/
theorem c8_core (objA objB : Fields) (fuel : Nat) (path : List String)
    (opts : ResolvedOptions) (idn : JsVal → JsVal → List String → DiffResult) (k : String)
    (hig : shouldIgnoreProperty (currentPathOf path k) opts.ignoreProperties = false)
    (hmemB : k ∈ objB.map Prod.fst) (hkA : hasKey objA k = true)
    (hgate : (0 < fuel && isPlainObject (jsIndex objA k) && isPlainObject (jsIndex objB k)) = true) :
    (k ∈ jsKeys (compareObjects objA objB fuel path opts idn).additions →
      recGet (compareObjects objA objB fuel path opts idn).additions k =
        some (idn (jsIndex objA k) (jsIndex objB k) (path ++ [k])).additions) ∧
    (k ∈ jsKeys (compareObjects objA objB fuel path opts idn).deletions →
      recGet (compareObjects objA objB fuel path opts idn).deletions k =
        some (idn (jsIndex objA k) (jsIndex objB k) (path ++ [k])).deletions) ∧
    (k ∈ jsKeys (compareObjects objA objB fuel path opts idn).updates →
      recGet (compareObjects objA objB fuel path opts idn).updates k =
        some (idn (jsIndex objA k) (jsIndex objB k) (path ++ [k])).updates) := by
  refine ⟨?_, ?_, ?_⟩ <;> intro hmem <;> rw [mem_jsKeys_iff_recGet] at hmem
  · rw [compareObjects_get_additions, if_pos hmemB] at hmem ⊢
    rw [addOutcomeAdd, if_neg (by simp [hig]), if_neg (by simp [hkA]), if_pos hgate] at hmem ⊢
    split_ifs at hmem ⊢ with hne
    · rfl
    · simp at hmem
  · rw [compareObjects_get_deletions] at hmem ⊢
    by_cases hsome : (addOutcomeDel objA objB fuel path opts idn k).isSome
    · rw [if_pos ⟨hmemB, hsome⟩] at hmem ⊢
      rw [addOutcomeDel, if_neg (by simp [hig]), if_neg (by simp [hkA]), if_pos hgate] at hmem ⊢
      split_ifs at hmem ⊢ with hne
      · rfl
      · simp at hmem
    · rw [if_neg (by simp [hsome])] at hmem
      have hkB : hasKey objB k = true := hasKey_iff_mem.mpr hmemB
      have : delOutcome objA objB path opts k = none := by
        rw [delOutcome, if_neg (by simp [hig]), if_neg (by simp [hkB])]
      split_ifs at hmem <;> simp_all
  · rw [compareObjects_get_updates, if_pos hmemB] at hmem ⊢
    rw [addOutcomeUpd, if_neg (by simp [hig]), if_neg (by simp [hkA]), if_pos hgate] at hmem ⊢
    split_ifs at hmem ⊢ with hne
    · rfl
    · simp at hmem

/-- C8: the key partition invariant.  At any level of the field-wise object
comparison, a key present in two (or all three) of the produced maps can only
have got there through the nested-recursion branch: both objects hold the key,
both values are plain objects, the depth budget is open, and each of the
entries of that key is the corresponding (distinct) sub-map of the nested
diff of its two values.  A key carrying a scalar entry (a copied value in
additions or deletions, or a from/to pair in updates) therefore occurs in at
most one of the three maps at its level. -/
theorem c8_key_partition (objA objB : Fields) (fuel : Nat) (path : List String)
    (opts : ResolvedOptions) (idn : JsVal → JsVal → List String → DiffResult) (k : String)
    (htwo :
      (k ∈ jsKeys (compareObjects objA objB fuel path opts idn).additions ∧
        k ∈ jsKeys (compareObjects objA objB fuel path opts idn).deletions) ∨
      (k ∈ jsKeys (compareObjects objA objB fuel path opts idn).additions ∧
        k ∈ jsKeys (compareObjects objA objB fuel path opts idn).updates) ∨
      (k ∈ jsKeys (compareObjects objA objB fuel path opts idn).deletions ∧
        k ∈ jsKeys (compareObjects objA objB fuel path opts idn).updates)) :
    ∃ va vb, jsGet objA k = some va ∧ jsGet objB k = some vb ∧
      isPlainObject va = true ∧ isPlainObject vb = true ∧ 0 < fuel ∧
      (k ∈ jsKeys (compareObjects objA objB fuel path opts idn).additions →
        recGet (compareObjects objA objB fuel path opts idn).additions k =
          some (idn va vb (path ++ [k])).additions) ∧
      (k ∈ jsKeys (compareObjects objA objB fuel path opts idn).deletions →
        recGet (compareObjects objA objB fuel path opts idn).deletions k =
          some (idn va vb (path ++ [k])).deletions) ∧
      (k ∈ jsKeys (compareObjects objA objB fuel path opts idn).updates →
        recGet (compareObjects objA objB fuel path opts idn).updates k =
          some (idn va vb (path ++ [k])).updates) := by
  -- first reduce the three possible pairs to the common nested configuration
  have config :
      shouldIgnoreProperty (currentPathOf path k) opts.ignoreProperties = false ∧
      k ∈ objB.map Prod.fst ∧ hasKey objA k = true ∧
      (0 < fuel && isPlainObject (jsIndex objA k) && isPlainObject (jsIndex objB k)) = true := by
    rcases htwo with ⟨hA, hD⟩ | ⟨hA, hU⟩ | ⟨hD, hU⟩
    · rw [mem_jsKeys_iff_recGet, compareObjects_get_additions] at hA
      rw [mem_jsKeys_iff_recGet, compareObjects_get_deletions] at hD
      by_cases hmemB : k ∈ objB.map Prod.fst
      · rw [if_pos hmemB] at hA
        obtain ⟨higA, hcases⟩ := addOutcomeAdd_isSome hA
        by_cases hsome : (addOutcomeDel objA objB fuel path opts idn k).isSome
        · obtain ⟨hig2, hkA, hgate⟩ := addOutcomeDel_isSome hsome
          exact ⟨higA, hmemB, hkA, hgate⟩
        · rw [if_neg (by simp [hsome])] at hD
          have hkB : hasKey objB k = true := hasKey_iff_mem.mpr hmemB
          split_ifs at hD with hmemA
          · obtain ⟨hig2, hkBfalse⟩ := delOutcome_isSome hD
            simp [hkB] at hkBfalse
          · simp at hD
      · rw [if_neg hmemB] at hA
        simp at hA
    · rw [mem_jsKeys_iff_recGet, compareObjects_get_additions] at hA
      rw [mem_jsKeys_iff_recGet, compareObjects_get_updates] at hU
      by_cases hmemB : k ∈ objB.map Prod.fst
      · rw [if_pos hmemB] at hA hU
        obtain ⟨higA, hcases⟩ := addOutcomeAdd_isSome hA
        obtain ⟨hig2, hkA⟩ := addOutcomeUpd_isSome hU
        rcases hcases with hfalse | ⟨_, hgate⟩
        · simp [hkA] at hfalse
        · exact ⟨higA, hmemB, hkA, hgate⟩
      · rw [if_neg hmemB] at hA
        simp at hA
    · rw [mem_jsKeys_iff_recGet, compareObjects_get_deletions] at hD
      rw [mem_jsKeys_iff_recGet, compareObjects_get_updates] at hU
      by_cases hmemB : k ∈ objB.map Prod.fst
      · rw [if_pos hmemB] at hU
        obtain ⟨higU, hkA⟩ := addOutcomeUpd_isSome hU
        by_cases hsome : (addOutcomeDel objA objB fuel path opts idn k).isSome
        · obtain ⟨hig2, hkA2, hgate⟩ := addOutcomeDel_isSome hsome
          exact ⟨higU, hmemB, hkA2, hgate⟩
        · rw [if_neg (by simp [hsome])] at hD
          have hkB : hasKey objB k = true := hasKey_iff_mem.mpr hmemB
          split_ifs at hD with hmemA
          · obtain ⟨hig2, hkBfalse⟩ := delOutcome_isSome hD
            simp [hkB] at hkBfalse
          · simp at hD
      · rw [if_neg hmemB] at hU
        simp at hU
  obtain ⟨hig, hmemB, hkA, hgate⟩ := config
  obtain ⟨va, hva⟩ := Option.isSome_iff_exists.mp (by simpa [hasKey] using hkA)
  obtain ⟨vb, hvb⟩ := Option.isSome_iff_exists.mp
    (by simpa [hasKey] using hasKey_iff_mem.mpr hmemB)
  have hja : jsIndex objA k = va := by simp [jsIndex, hva]
  have hjb : jsIndex objB k = vb := by simp [jsIndex, hvb]
  have hgate2 := hgate
  rw [hja, hjb, Bool.and_eq_true, Bool.and_eq_true] at hgate2
  obtain ⟨⟨hfuel, hpa⟩, hpb⟩ := hgate2
  have hcore := c8_core objA objB fuel path opts idn k hig hmemB hkA hgate
  rw [hja, hjb] at hcore
  exact ⟨va, vb, hva, hvb, hpa, hpb, by simpa using hfuel, hcore.1, hcore.2.1, hcore.2.2⟩

/-- C8 witness: a single key simultaneously in all three maps, via the three
distinct nested sub-maps of the recursive diff of its object values. -/
theorem c8_witness :
    ∃ va vb,
      jsGet [("k", JsVal.obj 3 [("x", .num (.fin 1)), ("y", .num (.fin 2))])] "k" = some va ∧
      jsGet [("k", JsVal.obj 4 [("y", .num (.fin 3)), ("z", .num (.fin 4))])] "k" = some vb ∧
      isPlainObject va = true ∧ isPlainObject vb = true ∧ 0 < 10 ∧
      ("k" ∈ jsKeys (compareObjects [("k", JsVal.obj 3 [("x", .num (.fin 1)), ("y", .num (.fin 2))])]
          [("k", JsVal.obj 4 [("y", .num (.fin 3)), ("z", .num (.fin 4))])] 10 []
          DEFAULT_OPTIONS (nextLevel 10 DEFAULT_OPTIONS)).additions →
        recGet (compareObjects [("k", JsVal.obj 3 [("x", .num (.fin 1)), ("y", .num (.fin 2))])]
          [("k", JsVal.obj 4 [("y", .num (.fin 3)), ("z", .num (.fin 4))])] 10 []
          DEFAULT_OPTIONS (nextLevel 10 DEFAULT_OPTIONS)).additions "k" =
          some (nextLevel 10 DEFAULT_OPTIONS va vb ([] ++ ["k"])).additions) ∧
      ("k" ∈ jsKeys (compareObjects [("k", JsVal.obj 3 [("x", .num (.fin 1)), ("y", .num (.fin 2))])]
          [("k", JsVal.obj 4 [("y", .num (.fin 3)), ("z", .num (.fin 4))])] 10 []
          DEFAULT_OPTIONS (nextLevel 10 DEFAULT_OPTIONS)).deletions →
        recGet (compareObjects [("k", JsVal.obj 3 [("x", .num (.fin 1)), ("y", .num (.fin 2))])]
          [("k", JsVal.obj 4 [("y", .num (.fin 3)), ("z", .num (.fin 4))])] 10 []
          DEFAULT_OPTIONS (nextLevel 10 DEFAULT_OPTIONS)).deletions "k" =
          some (nextLevel 10 DEFAULT_OPTIONS va vb ([] ++ ["k"])).deletions) ∧
      ("k" ∈ jsKeys (compareObjects [("k", JsVal.obj 3 [("x", .num (.fin 1)), ("y", .num (.fin 2))])]
          [("k", JsVal.obj 4 [("y", .num (.fin 3)), ("z", .num (.fin 4))])] 10 []
          DEFAULT_OPTIONS (nextLevel 10 DEFAULT_OPTIONS)).updates →
        recGet (compareObjects [("k", JsVal.obj 3 [("x", .num (.fin 1)), ("y", .num (.fin 2))])]
          [("k", JsVal.obj 4 [("y", .num (.fin 3)), ("z", .num (.fin 4))])] 10 []
          DEFAULT_OPTIONS (nextLevel 10 DEFAULT_OPTIONS)).updates "k" =
          some (nextLevel 10 DEFAULT_OPTIONS va vb ([] ++ ["k"])).updates) :=
  c8_key_partition [("k", JsVal.obj 3 [("x", .num (.fin 1)), ("y", .num (.fin 2))])]
    [("k", JsVal.obj 4 [("y", .num (.fin 3)), ("z", .num (.fin 4))])] 10 []
    DEFAULT_OPTIONS (nextLevel 10 DEFAULT_OPTIONS) "k"
    (Or.inl ⟨by decide, by decide⟩)


mutual
/-- Sufficient condition for diff v v to be the empty result at a given depth
budget: no NaN is ever reached by a primitive comparison, and no plain object
or Date sits in an array position once the budget is exhausted (the ordered
array walk refuses object-like pairs at the boundary).  Values that the
traversal only compares by reference (objects beyond the budget, arrays and
dates in field or element position) are unconstrained. -/
def idOkVal : Nat → JsVal → Bool
  | _, .num .nan => false
  | fuel, .arr _ xs => idOkElems fuel xs
  | fuel, .obj _ fs => idOkFields fuel fs
  | _, _ => true

/-- Field lists whose every value satisfies fieldOk. -/
def idOkFields : Nat → Fields → Bool
  | _, [] => true
  | fuel, (_, v) :: t => fieldOk fuel v && idOkFields fuel t
termination_by fuel fs => (fuel, sizeOf fs)

/-- Condition on a field value: object fields recurse at the decremented
budget (and are opaque references at budget 0), array fields defer to their
elements, NaN is excluded, everything else is reference- or value-reflexive. -/
def fieldOk : Nat → JsVal → Bool
  | _, .num .nan => false
  | fuel, .arr _ xs => idOkElems fuel xs
  | fuel, .obj _ fs => (match fuel with | 0 => true | f + 1 => idOkFields f fs)
  | _, _ => true
termination_by fuel v => (fuel, sizeOf v)

/-- Element lists whose every element satisfies elemOk. -/
def idOkElems : Nat → List JsVal → Bool
  | _, [] => true
  | fuel, v :: t => elemOk fuel v && idOkElems fuel t
termination_by fuel xs => (fuel, sizeOf xs)

/-- Condition on an array element: the ordered walk treats objects and dates
as object-like, so both need an open budget (objects additionally recurse);
NaN is excluded; nested arrays compare by reference and are unconstrained. -/
def elemOk : Nat → JsVal → Bool
  | _, .num .nan => false
  | fuel, .obj _ fs => (match fuel with | 0 => false | f + 1 => idOkFields f fs)
  | fuel, .date _ _ => decide (0 < fuel)
  | _, _ => true
termination_by fuel v => (fuel, sizeOf v)
end

theorem idOkVal_obj (fuel : Nat) (i : Nat) (fs : Fields) :
    idOkVal fuel (.obj i fs) = idOkFields fuel fs := by
  simp [idOkVal]

theorem idOkVal_arr (fuel : Nat) (i : Nat) (xs : List JsVal) :
    idOkVal fuel (.arr i xs) = idOkElems fuel xs := by
  simp [idOkVal]

theorem fieldOk_of_jsGet {fuel : Nat} {fs : Fields} {k : String} {v : JsVal}
    (hok : idOkFields fuel fs = true) (hget : jsGet fs k = some v) :
    fieldOk fuel v = true := by
  induction fs with
  | nil => simp [jsGet] at hget
  | cons hd t ih =>
    obtain ⟨k0, v0⟩ := hd
    rw [idOkFields] at hok
    simp only [Bool.and_eq_true] at hok
    rw [jsGet] at hget
    by_cases hk : k0 = k
    · rw [if_pos hk] at hget
      cases hget
      exact hok.1
    · rw [if_neg hk] at hget
      exact ih hok.2 hget

theorem elemOk_of_mem {fuel : Nat} {xs : List JsVal} {x : JsVal}
    (hok : idOkElems fuel xs = true) (hmem : x ∈ xs) :
    elemOk fuel x = true := by
  induction xs with
  | nil => simp at hmem
  | cons hd t ih =>
    rw [idOkElems] at hok
    simp only [Bool.and_eq_true] at hok
    rcases List.mem_cons.mp hmem with rfl | hmem2
    · exact hok.1
    · exact ih hok.2 hmem2

theorem comparePrimitives_refl (v : JsVal) (h : v ≠ .num .nan) (c : Bool) :
    comparePrimitives v v c = true := by
  simp [comparePrimitives, strictEq_refl v h]

theorem delLoop_self (objA objB : Fields) (path : List String) (opts : ResolvedOptions)
    (ks : List String) (r : DiffResult) (hks : ∀ k ∈ ks, hasKey objB k = true) :
    delLoop objA objB path opts ks r = r := by
  induction ks generalizing r with
  | nil => rfl
  | cons key rest ih =>
    rw [delLoop]
    have hstep : delStep objA objB path opts key r = r := by
      rw [delStep]
      split_ifs with h1 h2
      · rfl
      · simp [hks key (List.mem_cons_self key rest)] at h2
      · rfl
    rw [hstep]
    exact ih _ (fun k hk => hks k (List.mem_cons_of_mem key hk))


theorem orderLoop_self (fuel : Nat) (path : List String)
    (hnext : ∀ x path2, idOkVal (fuel - 1) x = true →
      nextLevel fuel DEFAULT_OPTIONS x x path2 = emptyResult) :
    ∀ (xs : List JsVal) (i : Nat), idOkElems fuel xs = true →
      orderLoop fuel path DEFAULT_OPTIONS (nextLevel fuel DEFAULT_OPTIONS) xs xs i = true := by
  intro xs
  induction xs with
  | nil => intro i _; rfl
  | cons x rest ih =>
    intro i hok
    rw [idOkElems] at hok
    simp only [Bool.and_eq_true] at hok
    obtain ⟨hx, hrest⟩ := hok
    rw [orderLoop]
    simp only [List.headD_cons, List.tail_cons]
    cases x with
    | num n =>
      cases n with
      | nan => simp [elemOk] at hx
      | fin q =>
        rw [if_pos (by simp [isPrimLike, typeOf])]
        rw [if_neg (by simp [comparePrimitives_refl (.num (.fin q)) (by simp) _])]
        exact ih (i + 1) hrest
    | obj oid fs =>
      cases fuel with
      | zero => simp [elemOk] at hx
      | succ f =>
        have hfs : idOkFields f fs = true := by simpa [elemOk] using hx
        rw [if_neg (by simp [isPrimLike, typeOf, isNull, isArray])]
        rw [if_pos (by simp [isObjLike, typeOf, isNull, isArray])]
        rw [if_pos (by simp)]
        rw [hnext _ _ (by simpa [idOkVal_obj] using hfs)]
        rw [if_neg (by simp [emptyResult, emptyRec, jsKeys])]
        exact ih (i + 1) hrest
    | date did t =>
      cases fuel with
      | zero => simp [elemOk] at hx
      | succ f =>
        rw [if_neg (by simp [isPrimLike, typeOf, isNull, isArray])]
        rw [if_pos (by simp [isObjLike, typeOf, isNull, isArray])]
        rw [if_pos (by simp)]
        rw [hnext _ _ (by simp [idOkVal])]
        rw [if_neg (by simp [emptyResult, emptyRec, jsKeys])]
        exact ih (i + 1) hrest
    | vnull =>
      rw [if_pos (by simp [isPrimLike, typeOf, isNull])]
      rw [if_neg (by simp [comparePrimitives_refl JsVal.vnull (by simp) _])]
      exact ih (i + 1) hrest
    | vundefined =>
      rw [if_pos (by simp [isPrimLike, typeOf])]
      rw [if_neg (by simp [comparePrimitives_refl JsVal.vundefined (by simp) _])]
      exact ih (i + 1) hrest
    | str s =>
      rw [if_pos (by simp [isPrimLike, typeOf])]
      rw [if_neg (by simp [comparePrimitives_refl (JsVal.str s) (by simp) _])]
      exact ih (i + 1) hrest
    | bool b =>
      rw [if_pos (by simp [isPrimLike, typeOf])]
      rw [if_neg (by simp [comparePrimitives_refl (JsVal.bool b) (by simp) _])]
      exact ih (i + 1) hrest
    | arr aid xs2 =>
      rw [if_pos (by simp [isPrimLike, typeOf, isArray])]
      rw [if_neg (by simp [comparePrimitives_refl (JsVal.arr aid xs2) (by simp) _])]
      exact ih (i + 1) hrest

theorem compareArrays_self (fuel : Nat) (path : List String)
    (hnext : ∀ x path2, idOkVal (fuel - 1) x = true →
      nextLevel fuel DEFAULT_OPTIONS x x path2 = emptyResult)
    (xs : List JsVal) (hok : idOkElems fuel xs = true) :
    compareArrays xs xs fuel path DEFAULT_OPTIONS (nextLevel fuel DEFAULT_OPTIONS) = true := by
  rw [compareArrays]
  rw [if_neg (by simp)]
  by_cases hlen : xs.length = 0
  · rw [if_pos hlen]
  · rw [if_neg hlen]
    rw [if_neg (by simp [DEFAULT_OPTIONS])]
    exact orderLoop_self fuel path hnext xs 0 hok


theorem addStep_self (fuel : Nat) (path : List String) (fs : Fields) (key : String)
    (r : DiffResult)
    (hnext : ∀ x path2, idOkVal (fuel - 1) x = true →
      nextLevel fuel DEFAULT_OPTIONS x x path2 = emptyResult)
    (hok : idOkFields fuel fs = true) (hk : hasKey fs key = true) :
    addStep fs fs fuel path DEFAULT_OPTIONS (nextLevel fuel DEFAULT_OPTIONS) key r = r := by
  obtain ⟨v, hv⟩ := Option.isSome_iff_exists.mp (by simpa [hasKey] using hk)
  have hfv : fieldOk fuel v = true := fieldOk_of_jsGet hok hv
  have hjv : jsIndex fs key = v := by simp [jsIndex, hv]
  rw [addStep]
  rw [if_neg (by simp [DEFAULT_OPTIONS, shouldIgnoreProperty_nil]), if_neg (by simp [hk])]
  simp only [hjv]
  cases v with
  | obj oid fs2 =>
    cases fuel with
    | zero =>
      rw [if_neg (by simp)]
      rw [if_neg (by simp [isArray])]
      rw [if_neg (by simp [comparePrimitives_refl (JsVal.obj oid fs2) (by simp) _])]
    | succ f =>
      have hfs2 : idOkFields f fs2 = true := by simpa [fieldOk] using hfv
      rw [if_pos (by simp [isPlainObject, isNull, isArray, isDate, typeOf])]
      rw [hnext _ _ (by simpa [idOkVal_obj] using hfs2)]
      simp [emptyResult, emptyRec, jsKeys]
  | arr aid xs =>
    have hxs : idOkElems fuel xs = true := by simpa [fieldOk] using hfv
    rw [if_neg (by simp [isPlainObject, isNull, isArray, isDate, typeOf])]
    rw [if_pos (by simp [isArray])]
    rw [elemsOf, compareArrays_self fuel (path ++ [key]) hnext xs hxs]
    rfl
  | num n =>
    cases n with
    | nan => simp [fieldOk] at hfv
    | fin q =>
      rw [if_neg (by simp [isPlainObject, isNull, isArray, isDate, typeOf])]
      rw [if_neg (by simp [isArray])]
      rw [if_neg (by simp [comparePrimitives_refl (JsVal.num (.fin q)) (by simp) _])]
  | vnull =>
    rw [if_neg (by simp [isPlainObject, isNull])]
    rw [if_neg (by simp [isArray])]
    rw [if_neg (by simp [comparePrimitives_refl JsVal.vnull (by simp) _])]
  | vundefined =>
    rw [if_neg (by simp [isPlainObject, isNull, isArray, isDate, typeOf])]
    rw [if_neg (by simp [isArray])]
    rw [if_neg (by simp [comparePrimitives_refl JsVal.vundefined (by simp) _])]
  | str s2 =>
    rw [if_neg (by simp [isPlainObject, isNull, isArray, isDate, typeOf])]
    rw [if_neg (by simp [isArray])]
    rw [if_neg (by simp [comparePrimitives_refl (JsVal.str s2) (by simp) _])]
  | bool b =>
    rw [if_neg (by simp [isPlainObject, isNull, isArray, isDate, typeOf])]
    rw [if_neg (by simp [isArray])]
    rw [if_neg (by simp [comparePrimitives_refl (JsVal.bool b) (by simp) _])]
  | date did t =>
    rw [if_neg (by simp [isPlainObject, isNull, isArray, isDate, typeOf])]
    rw [if_neg (by simp [isArray])]
    rw [if_neg (by simp [comparePrimitives_refl (JsVal.date did t) (by simp) _])]

theorem addLoop_self (fuel : Nat) (path : List String) (fs : Fields)
    (hnext : ∀ x path2, idOkVal (fuel - 1) x = true →
      nextLevel fuel DEFAULT_OPTIONS x x path2 = emptyResult)
    (hok : idOkFields fuel fs = true) :
    ∀ (ks : List String) (r : DiffResult), (∀ k ∈ ks, hasKey fs k = true) →
      addLoop fs fs fuel path DEFAULT_OPTIONS (nextLevel fuel DEFAULT_OPTIONS) ks r = r := by
  intro ks
  induction ks with
  | nil => intro r _; rfl
  | cons key rest ih =>
    intro r hks
    rw [addLoop, addStep_self fuel path fs key r hnext hok
      (hks key (List.mem_cons_self key rest))]
    exact ih r (fun k hkmem => hks k (List.mem_cons_of_mem key hkmem))

theorem compareObjects_self (fuel : Nat) (path : List String) (fs : Fields)
    (hnext : ∀ x path2, idOkVal (fuel - 1) x = true →
      nextLevel fuel DEFAULT_OPTIONS x x path2 = emptyResult)
    (hok : idOkFields fuel fs = true) :
    compareObjects fs fs fuel path DEFAULT_OPTIONS (nextLevel fuel DEFAULT_OPTIONS)
      = emptyResult := by
  unfold compareObjects
  rw [delLoop_self fs fs path DEFAULT_OPTIONS _ emptyResult
    (fun k hkmem => hasKey_iff_mem.mpr hkmem)]
  exact addLoop_self fuel path fs hnext hok _ emptyResult
    (fun k hkmem => hasKey_iff_mem.mpr hkmem)

theorem diffBody_self (fuel : Nat) (path : List String)
    (hnext : ∀ x path2, idOkVal (fuel - 1) x = true →
      nextLevel fuel DEFAULT_OPTIONS x x path2 = emptyResult)
    (v : JsVal) (hok : idOkVal fuel v = true) :
    diffBody fuel (nextLevel fuel DEFAULT_OPTIONS) v v path DEFAULT_OPTIONS = emptyResult := by
  cases v with
  | vnull => rfl
  | vundefined => rfl
  | num n =>
    cases n with
    | nan => simp [idOkVal] at hok
    | fin q =>
      simp [diffBody, isNullish, isArray, isPlainObject, isNull, isDate, typeOf,
        comparePrimitives_refl (JsVal.num (.fin q)) (by simp) _]
  | str s =>
    simp [diffBody, isNullish, isArray, isPlainObject, isNull, isDate, typeOf,
      comparePrimitives_refl (JsVal.str s) (by simp) _]
  | bool b =>
    simp [diffBody, isNullish, isArray, isPlainObject, isNull, isDate, typeOf,
      comparePrimitives_refl (JsVal.bool b) (by simp) _]
  | date did t =>
    simp [diffBody, isNullish, isArray, isPlainObject, isNull, isDate, typeOf,
      comparePrimitives_refl (JsVal.date did t) (by simp) _]
  | arr aid xs =>
    rw [diffBody]
    rw [if_neg (by simp [isNullish]), if_neg (by simp [isNullish]),
      if_neg (by simp [isNullish]), if_neg (by simp), if_pos (by simp [isArray])]
    rw [elemsOf, compareArrays_self fuel path hnext xs (by simpa [idOkVal_arr] using hok)]
    rfl
  | obj oid fs =>
    rw [diffBody]
    rw [if_neg (by simp [isNullish]), if_neg (by simp [isNullish]),
      if_neg (by simp [isNullish]), if_neg (by simp),
      if_neg (by simp [isArray]),
      if_pos (by simp [isPlainObject, isNull, isArray, isDate, typeOf])]
    rw [fieldsOf]
    exact compareObjects_self fuel path fs hnext (by simpa [idOkVal_obj] using hok)

theorem internalDiff_self (fuel : Nat) :
    ∀ (v : JsVal) (path : List String), idOkVal fuel v = true →
      internalDiff fuel v v path DEFAULT_OPTIONS = emptyResult := by
  induction fuel with
  | zero =>
    intro v path hok
    rw [internalDiff_eq]
    exact diffBody_self 0 path (fun x p _ => rfl) v hok
  | succ f ih =>
    intro v path hok
    rw [internalDiff_eq]
    refine diffBody_self (f + 1) path (fun x p hx => ?_) v hok
    show internalDiff f x x p DEFAULT_OPTIONS = emptyResult
    exact ih x p (by simpa using hx)


/-- C1 counterexample: the identity claim fails at v = NaN.  diff(NaN, NaN)
with default options reports the update from NaN to NaN (NaN is not strictly
equal to itself and the same-type coercion branch is also strict equality),
so the updates map is not empty. -/
theorem c1_counterexample :
    diff (.num .nan) (.num .nan) noOverrides ≠ emptyResult ∧
    (diff (.num .nan) (.num .nan) noOverrides).updates = fromTo (.num .nan) (.num .nan) :=
  ⟨fun h => absurd (congrArg (fun r => jsKeys r.updates) h) (by decide), rfl⟩

/-- C1 (amended): identity holds for every value on which the traversal never
compares NaN and never meets an object-like array element beyond the depth
budget: diff(v, v) with default options returns the all-empty result whenever
idOkVal 10 v holds, i.e. v contains no NaN outside positions compared only by
reference, and every plain object or Date occurring as an array element lies
at depth below the default maxDepth of 10 (the ordered array walk declares
object-like pairs unequal once the budget is exhausted, even for identical
references).  In particular identity holds for every NaN-free value nested
within the depth budget. -/
theorem c1_identity (v : JsVal) (h : idOkVal 10 v = true) :
    diff v v noOverrides = emptyResult :=
  internalDiff_self 10 v [] h

/-- C1 witness: identity at a concrete mixed value with nested object, array,
array-of-object and date components. -/
theorem c1_witness :
    diff (.obj 5 [("a", .num (.fin 1)),
                  ("b", .arr 6 [.str "s", .obj 7 [("c", .bool true)], .date 9 0]),
                  ("d", .date 8 0), ("e", .vnull)])
         (.obj 5 [("a", .num (.fin 1)),
                  ("b", .arr 6 [.str "s", .obj 7 [("c", .bool true)], .date 9 0]),
                  ("d", .date 8 0), ("e", .vnull)]) noOverrides = emptyResult :=
  c1_identity _ (by simp [idOkVal, idOkFields, fieldOk, idOkElems, elemOk])


theorem charListLe_refl (l : List Char) : charListLe l l = true := by
  induction l with
  | nil => rfl
  | cons a t ih => simp [charListLe, ih]

theorem charListLe_total (a b : List Char) :
    charListLe a b = true ∨ charListLe b a = true := by
  induction a generalizing b with
  | nil => left; rfl
  | cons x xs ih =>
    cases b with
    | nil => right; rfl
    | cons y ys =>
      by_cases hxy : x = y
      · subst hxy
        rcases ih ys with h | h
        · left; simp [charListLe, h]
        · right; simp [charListLe, h]
      · rcases lt_trichotomy x y with hlt | heq | hgt
        · left; simp [charListLe, hxy, hlt]
        · exact absurd heq hxy
        · right; simp [charListLe, Ne.symm hxy, hgt]

theorem charListLe_trans {a b c : List Char} (h1 : charListLe a b = true)
    (h2 : charListLe b c = true) : charListLe a c = true := by
  induction a generalizing b c with
  | nil => rfl
  | cons x xs ih =>
    cases b with
    | nil => simp [charListLe] at h1
    | cons y ys =>
      cases c with
      | nil => simp [charListLe] at h2
      | cons z zs =>
        rw [charListLe] at h1 h2 ⊢
        by_cases hxy : x = y
        · subst hxy
          rw [if_pos rfl] at h1
          by_cases hyz : x = z
          · subst hyz
            rw [if_pos rfl] at h2
            rw [if_pos rfl]
            exact ih h1 h2
          · rw [if_neg hyz] at h2
            rw [if_neg hyz]
            exact h2
        · rw [if_neg hxy] at h1
          have hlt1 : x < y := by simpa using h1
          by_cases hyz : y = z
          · subst hyz
            rw [if_neg hxy]
            simpa using hlt1
          · rw [if_neg hyz] at h2
            have hlt2 : y < z := by simpa using h2
            have hlt : x < z := lt_trans hlt1 hlt2
            rw [if_neg (ne_of_lt hlt)]
            simpa using hlt

theorem charListLe_antisymm {a b : List Char} (h1 : charListLe a b = true)
    (h2 : charListLe b a = true) : a = b := by
  induction a generalizing b with
  | nil =>
    cases b with
    | nil => rfl
    | cons y ys => simp [charListLe] at h2
  | cons x xs ih =>
    cases b with
    | nil => simp [charListLe] at h1
    | cons y ys =>
      rw [charListLe] at h1 h2
      by_cases hxy : x = y
      · subst hxy
        rw [if_pos rfl] at h1 h2
        rw [ih h1 h2]
      · rw [if_neg hxy] at h1
        rw [if_neg (Ne.symm hxy)] at h2
        have hlt1 : x < y := by simpa using h1
        have hlt2 : y < x := by simpa using h2
        exact absurd hlt2 (lt_asymm hlt1)

theorem isUndef_iff (v : JsVal) : isUndef v = true ↔ v = .vundefined := by
  cases v <;> simp [isUndef]

theorem sortLe_total (x y : JsVal) : sortLe x y = true ∨ sortLe y x = true := by
  unfold sortLe
  by_cases hx : isUndef x = true
  · by_cases hy : isUndef y = true <;> simp [hx, hy]
  · by_cases hy : isUndef y = true
    · simp [hx, hy]
    · simp only [hx, hy]
      simp only [Bool.false_eq_true, if_false]
      exact charListLe_total _ _

theorem sortLe_trans {x y z : JsVal} (h1 : sortLe x y = true) (h2 : sortLe y z = true) :
    sortLe x z = true := by
  unfold sortLe at h1 h2 ⊢
  by_cases hx : isUndef x = true
  · rw [if_pos hx] at h1 ⊢
    rw [if_pos h1] at h2
    exact h2
  · rw [if_neg hx] at h1 ⊢
    by_cases hz : isUndef z = true
    · rw [if_pos hz]
    · rw [if_neg hz]
      by_cases hy : isUndef y = true
      · rw [if_pos hy] at h2
        exact absurd h2 hz
      · rw [if_neg hy] at h1
        rw [if_neg hy, if_neg hz] at h2
        exact charListLe_trans h1 h2

theorem orderedInsert_perm (x : JsVal) (l : List JsVal) :
    List.Perm (orderedInsert x l) (x :: l) := by
  induction l with
  | nil => rfl
  | cons y t ih =>
    rw [orderedInsert]
    by_cases h : sortLe x y = true
    · rw [if_pos h]
    · rw [if_neg h]
      exact ((ih.cons y).trans (List.Perm.swap x y t))

theorem jsSort_perm (l : List JsVal) : List.Perm (jsSort l) l := by
  induction l with
  | nil => rfl
  | cons x t ih =>
    rw [jsSort]
    exact (orderedInsert_perm x (jsSort t)).trans (ih.cons x)

theorem orderedInsert_sorted (x : JsVal) (l : List JsVal)
    (h : List.Sorted (fun a b => sortLe a b = true) l) :
    List.Sorted (fun a b => sortLe a b = true) (orderedInsert x l) := by
  induction l with
  | nil => simp [orderedInsert]
  | cons y t ih =>
    rw [List.sorted_cons] at h
    obtain ⟨hy, ht⟩ := h
    rw [orderedInsert]
    by_cases hxy : sortLe x y = true
    · rw [if_pos hxy]
      rw [List.sorted_cons]
      refine ⟨?_, by rw [List.sorted_cons]; exact ⟨hy, ht⟩⟩
      intro b hb
      rcases List.mem_cons.mp hb with rfl | hb2
      · exact hxy
      · exact sortLe_trans hxy (hy b hb2)
    · rw [if_neg hxy]
      rw [List.sorted_cons]
      refine ⟨?_, ih ht⟩
      intro b hb
      rcases List.mem_cons.mp ((orderedInsert_perm x t).mem_iff.mp hb) with rfl | hb2
      · rcases sortLe_total b y with h | h
        · exact absurd h hxy
        · exact h
      · exact hy b hb2

theorem jsSort_sorted (l : List JsVal) :
    List.Sorted (fun a b => sortLe a b = true) (jsSort l) := by
  induction l with
  | nil => simp [jsSort]
  | cons x t ih => exact orderedInsert_sorted x (jsSort t) ih


/-- The ES default sort key of a value: the undefined-last flag paired with
the String() image; sortLe is exactly the induced lexicographic order. -/
def sortKey (v : JsVal) : Bool × String := (isUndef v, jsToString v)

/-- The order on sort keys: equal flags compare strings, and a non-undefined
key precedes an undefined one.  Unlike sortLe itself this relation is
antisymmetric, which is what pins down the sorted sequences of a multiset. -/
def keyLe (k1 k2 : Bool × String) : Prop :=
  (k1.1 = k2.1 ∧ charListLe k1.2.data k2.2.data = true) ∨ (k1.1 = false ∧ k2.1 = true)

theorem keyLe_antisymm (k1 k2 : Bool × String) (h1 : keyLe k1 k2) (h2 : keyLe k2 k1) :
    k1 = k2 := by
  obtain ⟨f1, s1⟩ := k1
  obtain ⟨f2, s2⟩ := k2
  rcases h1 with ⟨hf1, hs1⟩ | ⟨hf1, hf2⟩ <;> rcases h2 with ⟨hg1, hs2⟩ | ⟨hg1, hg2⟩ <;>
    simp_all
  have hdata : s1.data = s2.data := charListLe_antisymm hs1 hs2
  rcases s1 with ⟨d1⟩
  rcases s2 with ⟨d2⟩
  exact congrArg String.mk hdata

theorem sortLe_iff_keyLe (x y : JsVal) :
    sortLe x y = true ↔ keyLe (sortKey x) (sortKey y) := by
  unfold sortLe keyLe sortKey
  by_cases hx : isUndef x = true
  · rw [if_pos hx]
    by_cases hy : isUndef y = true
    · have hxv : x = .vundefined := (isUndef_iff x).mp hx
      have hyv : y = .vundefined := (isUndef_iff y).mp hy
      subst hxv; subst hyv
      simp [isUndef, charListLe_refl]
    · simp [hx, hy]
  · rw [if_neg hx]
    by_cases hy : isUndef y = true
    · simp [hx, hy]
    · simp [hx, hy]

theorem sorted_keys_eq (xs ys : List JsVal) (hperm : List.Perm xs ys) :
    (jsSort xs).map sortKey = (jsSort ys).map sortKey := by
  have hanti : IsAntisymm (Bool × String) keyLe := ⟨keyLe_antisymm⟩
  have hp : List.Perm ((jsSort xs).map sortKey) ((jsSort ys).map sortKey) :=
    ((jsSort_perm xs).trans (hperm.trans (jsSort_perm ys).symm)).map sortKey
  have hs1 : List.Sorted keyLe ((jsSort xs).map sortKey) :=
    List.pairwise_map.mpr ((jsSort_sorted xs).imp (fun h => (sortLe_iff_keyLe _ _).mp h))
  have hs2 : List.Sorted keyLe ((jsSort ys).map sortKey) :=
    List.pairwise_map.mpr ((jsSort_sorted ys).imp (fun h => (sortLe_iff_keyLe _ _).mp h))
  exact @List.eq_of_perm_of_sorted _ keyLe hanti _ _ hp hs1 hs2

theorem sortedLoop_of_keys (sA : List JsVal) :
    ∀ (sB : List JsVal), sA.map sortKey = sB.map sortKey →
      (∀ a b, a ∈ sA → b ∈ sB → sortKey a = sortKey b →
        comparePrimitives a b true = true) →
      sortedLoop sA sB true = true := by
  induction sA with
  | nil => intro sB _ _; rfl
  | cons a ta ih =>
    intro sB hkeys hcmp
    cases sB with
    | nil => simp at hkeys
    | cons b tb =>
      simp only [List.map_cons, List.cons.injEq] at hkeys
      have hab := hcmp a b (List.mem_cons_self a ta) (List.mem_cons_self b tb) hkeys.1
      rw [sortedLoop]
      simp only [List.headD_cons, List.tail_cons]
      rw [if_neg (by simp [hab])]
      exact ih tb hkeys.2
        (fun p q hp hq h => hcmp p q (List.mem_cons_of_mem a hp) (List.mem_cons_of_mem b hq) h)

/-- C6 (amended): for every array of non-object primitive elements in which
any two non-undefined elements sharing the same String() image are
coercion-equal (in particular: no NaN, and not both null and the string
"null"), diffing against any permutation of the array under
arrayOrderMatters false yields the all-empty result.  The tie condition is
forced: the sorted walk aligns elements only up to their sort keys, so
key-tied elements land in matching positions in either order and must pass
comparePrimitives — NaN fails against itself, and null fails against the
string "null". -/
theorem c6_order_insensitive_primitive_arrays (xs ys : List JsVal)
    (hperm : List.Perm xs ys)
    (hprim : xs.all isPrimElemSort = true)
    (hties : ∀ x ∈ xs, ∀ y ∈ xs, isUndef x = false → isUndef y = false →
      jsToString x = jsToString y → comparePrimitives x y true = true) :
    diff (.obj 1 [("x", .arr 1 xs)]) (.obj 2 [("x", .arr 2 ys)])
        ⟨none, none, some false, none⟩ = emptyResult := by
  have hprimY : ys.all isPrimElemSort = true := by
    rw [List.all_eq_true] at hprim ⊢
    intro x hx
    exact hprim x (hperm.mem_iff.mpr hx)
  have hcmp : ∀ a b, a ∈ jsSort xs → b ∈ jsSort ys → sortKey a = sortKey b →
      comparePrimitives a b true = true := by
    intro a b ha hb hk
    have haxs : a ∈ xs := (jsSort_perm xs).mem_iff.mp ha
    have hbxs : b ∈ xs := hperm.mem_iff.mpr ((jsSort_perm ys).mem_iff.mp hb)
    have hflags : isUndef a = isUndef b := congrArg Prod.fst hk
    by_cases hua : isUndef a = true
    · have hub : isUndef b = true := by rw [← hflags]; exact hua
      rw [(isUndef_iff a).mp hua, (isUndef_iff b).mp hub]
      rfl
    · have hub : isUndef b = true → False := by
        intro hb2
        rw [← hflags] at hb2
        exact hua hb2
      exact hties a haxs b hbxs (by simpa using hua) (by simpa using hub)
        (congrArg Prod.snd hk)
  have hcA : compareArrays xs ys 10 ["x"] ⟨[], true, false, 10⟩
      (nextLevel 10 ⟨[], true, false, 10⟩) = true := by
    rw [compareArrays]
    rw [if_neg (by simp [hperm.length_eq])]
    by_cases h0 : xs.length = 0
    · rw [if_pos h0]
    · rw [if_neg h0]
      rw [if_pos (by simp [hprim, hprimY])]
      exact sortedLoop_of_keys (jsSort xs) (jsSort ys) (sorted_keys_eq xs ys hperm) hcmp
  have hstep : diff (.obj 1 [("x", .arr 1 xs)]) (.obj 2 [("x", .arr 2 ys)])
      ⟨none, none, some false, none⟩
      = (if !compareArrays xs ys 10 ["x"] ⟨[], true, false, 10⟩
            (nextLevel 10 ⟨[], true, false, 10⟩) then
          ⟨emptyRec, emptyRec, .obj 0 [("x", fromTo (.arr 1 xs) (.arr 2 ys))]⟩
        else emptyResult) := rfl
  rw [hstep, hcA]
  rfl

/-- C6 counterexample: the singleton array holding NaN (its own permutation,
all elements non-object primitives) yields a nonempty updates map under
arrayOrderMatters false, because the sorted element-wise walk compares NaN
with NaN and fails. -/
theorem c6_counterexample :
    (diff (.obj 1 [("x", .arr 1 [.num .nan])]) (.obj 2 [("x", .arr 2 [.num .nan])])
        ⟨none, none, some false, none⟩).updates ≠ emptyRec ∧
    (diff (.obj 1 [("x", .arr 1 [.num .nan])]) (.obj 2 [("x", .arr 2 [.num .nan])])
        ⟨none, none, some false, none⟩).updates
      = .obj 0 [("x", fromTo (.arr 1 [.num .nan]) (.arr 2 [.num .nan]))] :=
  ⟨fun h => absurd (congrArg jsKeys h) (by decide), rfl⟩

/-- C6 witness: the two-string array of the spec scenario, permuted. -/
theorem c6_witness :
    diff (.obj 1 [("x", .arr 1 [.str "js", .str "ts"])])
         (.obj 2 [("x", .arr 2 [.str "ts", .str "js"])])
         ⟨none, none, some false, none⟩ = emptyResult :=
  c6_order_insensitive_primitive_arrays [.str "js", .str "ts"] [.str "ts", .str "js"]
    (List.Perm.swap (JsVal.str "ts") (JsVal.str "js") []) (by decide) (by decide)

end ObjectDiff
